import Mathlib

/-!
Verification development for the `elf2rel` ELF-to-REL converter
(`src/elf2rel/elf2rel.cpp`).  The definitions below are a shallow
embedding of the program's data model and algorithms: the symbol-map
loader (`parseInt` / `parseSymbol` / `loadSymbolMap` and the
`std::map::merge` loop in `main`), the relocation comparator and sort,
the early-resolution patcher, and the relocation-stream encoder with
its module/section separators, NOP saturation and `fixedDataSize`
bookkeeping.  Machine integers are modelled as `Nat`/`Int` with
explicit wrap-arounds where the C++ performs conversions.
-/

/-- `0xFFFFFFFF`, the value of the C++ `int` sentinel `-1` after conversion
to `uint32_t` (used for `currentModuleID`, `currentSectionIndex`,
`lastModuleID` comparisons against `uint32_t` fields). -/
def uMax : Nat := 4294967295

/-- Wrap an `Int` to its low 32 bits, i.e. the value of the corresponding
C++ `uint32_t` after a two's-complement conversion. -/
def wrap32 (z : Int) : Nat := (z % (4294967296 : Int)).toNat

/-- Modelled from the spec: PowerPC relocation-type constant from the missing
header `elf2rel.h` (SysV PPC ABI value). -/
def R_PPC_NONE : Nat := 0

/-- Modelled from the spec: PowerPC relocation-type constant from the missing
header `elf2rel.h` (SysV PPC ABI value). -/
def R_PPC_REL24 : Nat := 10

/-- Modelled from the spec: PowerPC relocation-type constant from the missing
header `elf2rel.h` (SysV PPC ABI value). -/
def R_PPC_REL32 : Nat := 26

/-- Modelled from the spec: Dolphin pseudo-relocation constant from the missing
header `elf2rel.h` (spec section 3: `R_DOLPHIN_NOP = 201`). -/
def R_DOLPHIN_NOP : Nat := 201

/-- Modelled from the spec: Dolphin pseudo-relocation constant from the missing
header `elf2rel.h` (spec section 3: `R_DOLPHIN_SECTION = 202`). -/
def R_DOLPHIN_SECTION : Nat := 202

/-- Modelled from the spec: Dolphin pseudo-relocation constant from the missing
header `elf2rel.h` (spec section 3: `R_DOLPHIN_END = 203`). -/
def R_DOLPHIN_END : Nat := 203

/-- `SymbolLocation` from `elf2rel.cpp`: `{ moduleId, targetSection, addr }`,
all `uint32_t`. -/
structure SymbolLocation where
  moduleId : Nat
  targetSection : Nat
  addr : Nat
deriving DecidableEq, Repr

/-- Characters accepted by `std::isspace` in the default C locale
(used by `boost::trim` and by `std::stoul`'s leading-whitespace skip). -/
def isSpaceB (ch : Char) : Bool :=
  ch = ' ' || ch = '\t' || ch = '\n' || ch = '\r' || ch = '\x0b' || ch = '\x0c'

/-- `boost::trim_left`: drop leading whitespace. -/
def trimLeftC (cs : List Char) : List Char := cs.dropWhile isSpaceB

/-- `boost::trim`: drop leading and trailing whitespace. -/
def trimC (cs : List Char) : List Char :=
  ((cs.dropWhile isSpaceB).reverse.dropWhile isSpaceB).reverse

/-- `boost::split` with `is_any_of` on a single separator character:
split at every occurrence, keeping empty tokens (an empty input yields
one empty token). -/
def splitOnChar (c : Char) : List Char → List (List Char)
  | [] => [[]]
  | x :: xs =>
    match splitOnChar c xs with
    | [] => [[]]
    | h :: t => if x = c then [] :: h :: t else (x :: h) :: t

/-- Numeric value of a character as a digit (`0-9`, `a-z`, `A-Z`),
as used by `strtoul`. -/
def digitValC (ch : Char) : Option Nat :=
  if '0' ≤ ch ∧ ch ≤ '9' then some (ch.toNat - 48)
  else if 'a' ≤ ch ∧ ch ≤ 'z' then some (ch.toNat - 87)
  else if 'A' ≤ ch ∧ ch ≤ 'Z' then some (ch.toNat - 55)
  else none

/-- A digit valid in the given base. -/
def digitInBase (base : Nat) (ch : Char) : Option Nat :=
  match digitValC ch with
  | some v => if v < base then some v else none
  | none => none

/-- Consume a maximal run of digits in `base`, accumulating the value
(as an unbounded natural; overflow is checked afterwards) and counting
the consumed characters. -/
def takeDigits (base : Nat) : List Char → Nat → Nat → Nat × Nat
  | [], acc, n => (acc, n)
  | ch :: rest, acc, n =>
    match digitInBase base ch with
    | some v => takeDigits base rest (acc * base + v) (n + 1)
    | none => (acc, n)

/-- Whether a `0x`/`0X` prefix is followed by a hexadecimal digit
(only then does `strtoul` consume the prefix). -/
def hexPrefixOk (x : Char) (rest : List Char) : Bool :=
  (x = 'x' || x = 'X') &&
    (match rest with
     | r :: _ => (digitInBase 16 r).isSome
     | [] => false)

/-- Digit scan of `std::stoul` after whitespace and sign: handles the
optional `0x` prefix for base 16 and the base inference for base 0
(`0x` → hex, leading `0` → octal, else decimal).  Returns the accumulated
value and the number of characters consumed (prefix included);
a zero count means no digits were found (`std::invalid_argument`). -/
def stoulBody (cs : List Char) (base : Nat) : Nat × Nat :=
  if base = 16 then
    match cs with
    | '0' :: x :: rest =>
      if hexPrefixOk x rest then
        let vn := takeDigits 16 rest 0 0
        (vn.1, vn.2 + 2)
      else takeDigits 16 cs 0 0
    | _ => takeDigits 16 cs 0 0
  else if base = 0 then
    match cs with
    | '0' :: x :: rest =>
      if hexPrefixOk x rest then
        let vn := takeDigits 16 rest 0 0
        (vn.1, vn.2 + 2)
      else takeDigits 8 cs 0 0
    | _ =>
      match cs.head? with
      | some '0' => takeDigits 8 cs 0 0
      | _ => takeDigits 10 cs 0 0
  else takeDigits base cs 0 0

/-- Result of `std::stoul`: either `std::invalid_argument` (no digits),
`std::out_of_range` (value exceeds `unsigned long`, 64-bit here), or a
value together with the number of characters consumed. -/
inductive StoulR where
  | invalid : StoulR
  | outOfRange : StoulR
  | ok : Nat → Nat → StoulR
deriving DecidableEq, Repr

/-- Model of `std::stoul(str, &len, base)` on a 64-bit platform: skip
leading whitespace, accept an optional sign, parse digits with base
inference, negate modulo 2^64 for `-`, throw `out_of_range` when the
magnitude exceeds `2^64 - 1`. -/
def stoulModel (cs : List Char) (base : Nat) : StoulR :=
  let ws := (cs.takeWhile isSpaceB).length
  let cs1 := cs.dropWhile isSpaceB
  let sr : Bool × Nat × List Char :=
    match cs1 with
    | '-' :: rest => (true, 1, rest)
    | '+' :: rest => (false, 1, rest)
    | _ => (false, 0, cs1)
  let vn := stoulBody sr.2.2 base
  if vn.2 = 0 then .invalid
  else if vn.1 > 18446744073709551615 then .outOfRange
  else
    .ok (if sr.1 then (18446744073709551616 - vn.1 % 18446744073709551616) % 18446744073709551616
         else vn.1)
       (ws + sr.2.1 + vn.2)

/-- Result of `parseInt` in the model: success with the `uint32_t` value,
failure (caught `std::invalid_argument`, returns `false`), or an uncaught
`std::out_of_range` exception that terminates the program. -/
inductive PIntR where
  | ok : Nat → PIntR
  | fail : PIntR
  | abort : PIntR
deriving DecidableEq, Repr

/-- `parseInt` from `elf2rel.cpp`: `std::stoul` must consume the whole
string; the result is truncated to `uint32_t`.  Only
`std::invalid_argument` is caught — `std::out_of_range` escapes. -/
def parseIntModel (cs : List Char) (base : Nat) : PIntR :=
  match stoulModel cs base with
  | .invalid => .fail
  | .outOfRange => .abort
  | .ok v n => if n = cs.length then .ok (v % 4294967296) else .fail

/-- Result of `parseSymbol`: a parsed `(name, location)` pair, a parse
failure (line skipped with a diagnostic), or an uncaught exception. -/
inductive PSymR where
  | ok : List Char → SymbolLocation → PSymR
  | fail : PSymR
  | abort : PSymR
deriving DecidableEq, Repr

/-- `parseSymbol` from `elf2rel.cpp`: split the line around `:` (exactly
two parts), trim both, take the name from the second; split the first
around `,`: one field is the DOL form (hex address), three fields are the
REL form (`module`, `section` with C-style base inference, hex offset).
The `&&` chains short-circuit, so a later field is not parsed once an
earlier one fails. -/
def parseSymbolModel (cs : List Char) : PSymR :=
  match splitOnChar ':' cs with
  | [p0, p1] =>
    let q0 := trimC p0
    let name := trimC p1
    match splitOnChar ',' q0 with
    | [a] =>
      match parseIntModel a 16 with
      | .ok v => .ok name ⟨0, 0, v⟩
      | .fail => .fail
      | .abort => .abort
    | [a, b, c] =>
      match parseIntModel (trimC a) 0 with
      | .ok m =>
        match parseIntModel (trimC b) 0 with
        | .ok s =>
          match parseIntModel (trimC c) 16 with
          | .ok v => .ok name ⟨m, s, v⟩
          | .fail => .fail
          | .abort => .abort
        | .fail => .fail
        | .abort => .abort
      | .fail => .fail
      | .abort => .abort
    | _ => .fail
  | _ => .fail

/-- Outcome of processing one symbol-map line in `loadSymbolMap`. -/
inductive LineR where
  | skipped : LineR
  | parsed : List Char → SymbolLocation → LineR
  | invalid : LineR
  | overflowAbort : LineR
deriving DecidableEq, Repr

/-- One iteration of the `loadSymbolMap` line loop: trim left, skip empty
lines and lines whose first character is `/` (the `find_first_of("//")`
comment test matches a single slash), then try `parseSymbol`. -/
def processLineModel (l : String) : LineR :=
  let cs := trimLeftC l.toList
  if cs.length = 0 then .skipped
  else if cs.head? = some '/' then .skipped
  else
    match parseSymbolModel cs with
    | .ok n loc => .parsed n loc
    | .fail => .invalid
    | .abort => .overflowAbort

/-- The symbol map: association list from symbol name to location,
keeping keys unique (mirroring `std::map` lookup semantics). -/
abbrev SymMap := List (List Char × SymbolLocation)

/-- First-match lookup, the semantics of `std::map::find`. -/
def lookupMap (m : SymMap) (k : List Char) : Option SymbolLocation :=
  (m.find? (fun p => p.1 = k)).map (fun p => p.2)

/-- `outputMap[name] = sym`: insert-or-assign. -/
def insertAssign (m : SymMap) (k : List Char) (v : SymbolLocation) : SymMap :=
  match m with
  | [] => [(k, v)]
  | p :: rest => if p.1 = k then (k, v) :: rest else p :: insertAssign rest k v

/-- The diagnostic printed for a line that fails to parse (the line has
already been trimmed on the left when it is printed). -/
def diagMsg (l : String) : String :=
  "Invalid symbol: " ++ String.mk (trimLeftC l.toList)

/-- The `loadSymbolMap` line loop over a list of lines: skipped lines are
ignored, malformed lines produce a diagnostic and are skipped, parsed
lines are inserted (later lines of the same file overwrite), and an
uncaught `std::out_of_range` terminates the program (`none`). -/
def loadLines : List String → SymMap → Option (SymMap × List String)
  | [], m => some (m, [])
  | l :: rest, m =>
    match processLineModel l with
    | .skipped => loadLines rest m
    | .invalid => (loadLines rest m).map (fun p => (p.1, diagMsg l :: p.2))
    | .parsed n loc => loadLines rest (insertAssign m n loc)
    | .overflowAbort => none

/-- `loadSymbolMap` on the lines of one file: returns the map and the
diagnostics, or `none` if the program aborted. -/
def loadSymbolMapLines (lines : List String) : Option (SymMap × List String) :=
  loadLines lines []

/-- `std::map::merge(source)`: move into the destination exactly the
entries whose key is not already present; existing entries win. -/
def mergeStd (dst src : SymMap) : SymMap :=
  dst ++ src.filter (fun p => (lookupMap dst p.1).isNone)

/-- Merge a list of already-loaded maps the way `main` does
(`externalSymbolMap.merge(syms)` in file order, starting empty). -/
def mergeMaps (ms : List SymMap) : SymMap := ms.foldl mergeStd []

/-- The symbol-map loading loop of `main`: load each file in order and
merge it into the accumulated map with `std::map::merge`. -/
def loadAll (files : List (List String)) : Option SymMap :=
  files.foldlM
    (fun acc lines => (loadSymbolMapLines lines).map (fun p => mergeStd acc p.1)) []

/-- The `Relocation` record built by the relocation collector in `main`:
`moduleID : uint32`, `section : uint32` (source section ELF index, named
`srcSection` here because `section` is reserved), `offset : uint32`,
`targetSection : uint8`, `addend : uint32`, `type : uint8`
(named `rtype`). -/
structure Relocation where
  moduleID : Nat
  srcSection : Nat
  offset : Nat
  targetSection : Nat
  addend : Nat
  rtype : Nat
deriving DecidableEq, Repr

/-- `getModuleDelay` from `main`: 1 for the DOL (module 0) and for the
module's own ID, else 0. -/
def delayOf (selfId id : Nat) : Nat :=
  if id = 0 ∨ id = selfId then 1 else 0

/-- `std::tuple` lexicographic `<` on `(moduleID, section, offset)`. -/
def tupLT (a b : Nat × Nat × Nat) : Bool :=
  decide (a.1 < b.1 ∨ (a.1 = b.1 ∧ (a.2.1 < b.2.1 ∨ (a.2.1 = b.2.1 ∧ a.2.2 < b.2.2))))

/-- The sort comparator from `main`: delays first, then the
`(moduleID, section, offset)` tuple lexicographically. -/
def relLT (selfId : Nat) (l r : Relocation) : Bool :=
  if delayOf selfId l.moduleID ≠ delayOf selfId r.moduleID then
    decide (delayOf selfId l.moduleID < delayOf selfId r.moduleID)
  else
    tupLT (l.moduleID, l.srcSection, l.offset) (r.moduleID, r.srcSection, r.offset)

/-- The non-strict order induced by the comparator (`a` may precede `b`
in a `std::sort` result iff `¬ relLT b a`). -/
def relLE (selfId : Nat) (a b : Relocation) : Bool := ! relLT selfId b a

/-- `std::sort(allRelocations.begin(), allRelocations.end(), cmp)`,
modelled with an insertion sort over the induced non-strict order (any
`std::sort` result is some permutation sorted with respect to this
order; the claims depend only on sortedness and the multiset). -/
def sortRels (selfId : Nat) (rels : List Relocation) : List Relocation :=
  rels.insertionSort (fun a b => relLE selfId a b = true)

/-- Read a big-endian 32-bit word at a byte offset of the output buffer
(the `load` primitive of `elf2rel.h` applied to a 4-byte slice). -/
def readBE32 (buf : List Nat) (off : Nat) : Nat :=
  buf.getD off 0 * 16777216 + buf.getD (off + 1) 0 * 65536 +
    buf.getD (off + 2) 0 * 256 + buf.getD (off + 3) 0

/-- Overwrite the four bytes at a byte offset with a big-endian 32-bit
word (the `save`-then-`std::copy` sequence of the patcher). -/
def writeBE32 (buf : List Nat) (off v : Nat) : List Nat :=
  (((buf.set off (v / 16777216 % 256)).set (off + 1) (v / 65536 % 256)).set
      (off + 2) (v / 256 % 256)).set (off + 3) (v % 256)

/-- The early-resolution test in the encoder loop:
`nextRel.moduleID == moduleID && (type == R_PPC_REL24 || type == R_PPC_REL32)`. -/
def earlyCond (selfId : Nat) (r : Relocation) : Bool :=
  r.moduleID == selfId && (r.rtype == R_PPC_REL24 || r.rtype == R_PPC_REL32)

/-- The early-resolution patch (lines 548-570 of `elf2rel.cpp`):
look up the source and target sections in `writtenSections` (`at` throws,
modelled by `none`, when the section was never written), compute the
signed 32-bit PC-relative delta, and patch the four bytes in place —
for `R_PPC_REL24` by OR-ing `delta & 0x03FFFFFC` into the instruction
without clearing the field first, for `R_PPC_REL32` by overwriting the
word with the delta.  An out-of-bounds patch is undefined behaviour in
the C++ and is modelled by `none` as well.
Modelled from the spec: the byte-buffer primitives `save`/`load` live in
the missing header `elf2rel.h`; per spec sections 4.1 and 4.7 the net
effect is an in-place big-endian overwrite of the four bytes. -/
def earlyPatch (written : Nat → Option Nat) (buf : List Nat) (r : Relocation) :
    Option (List Nat) :=
  match written r.srcSection, written r.targetSection with
  | some srcBase, some dstBase =>
    let off := srcBase + r.offset
    if off + 4 ≤ buf.length then
      let delta : Int := (dstBase : Int) + (r.addend : Int) - (off : Int)
      let instr := readBE32 buf off
      let patched :=
        if r.rtype = R_PPC_REL24 then instr ||| (wrap32 delta &&& 0x03FFFFFC)
        else wrap32 delta
      some (writeBE32 buf off patched)
    else none
  | _, _ => none

/-- One 8-byte record of the relocation stream, with ghost data: a real
relocation keeps the `int` offset argument passed to `writeRelocation`
and the source `Relocation`; `nop`, `sect` and `stop` are the
`R_DOLPHIN_NOP` / `R_DOLPHIN_SECTION` / `R_DOLPHIN_END` control entries. -/
inductive StreamEntry where
  | real : Int → Relocation → StreamEntry
  | nop : StreamEntry
  | sect : Nat → StreamEntry
  | stop : StreamEntry
deriving DecidableEq, Repr

/-- The `int` value passed as the `offset` argument of `writeRelocation`
for each stream entry. -/
def entryFieldInt : StreamEntry → Int
  | .real f _ => f
  | .nop => 0xFFFF
  | .sect _ => 0
  | .stop => 0

/-- Big-endian bytes of a 16-bit value. -/
def be16 (v : Nat) : List Nat := [v / 256 % 256, v % 256]

/-- Big-endian bytes of a 32-bit value. -/
def be32 (v : Nat) : List Nat :=
  [v / 16777216 % 256, v / 65536 % 256, v / 256 % 256, v % 256]

/-- Truncation of an `int` to `uint16_t` (the `save<uint16_t>` conversion). -/
def wrap16i (z : Int) : Nat := (z % (65536 : Int)).toNat

/-- The 8 bytes `writeRelocation` appends for a stream entry:
`offset : u16, type : u8, section : u8, addend : u32`, big-endian. -/
def encodeEntryBytes : StreamEntry → List Nat
  | .real f r => be16 (wrap16i f) ++ [r.rtype % 256, r.targetSection % 256] ++ be32 (r.addend % 4294967296)
  | .nop => be16 0xFFFF ++ [R_DOLPHIN_NOP, 0] ++ be32 0
  | .sect s => be16 0 ++ [R_DOLPHIN_SECTION, s % 256] ++ be32 0
  | .stop => be16 0 ++ [R_DOLPHIN_END, 0] ++ be32 0

/-- Byte image of the relocation stream (each entry is tagged with the
target module of the block it belongs to; the tag is ghost data). -/
def streamBytes (s : List (Nat × StreamEntry)) : List Nat :=
  (s.map (fun p => encodeEntryBytes p.2)).flatten

/-- The mutable state of the encoder loop in `main`: the cursors
(`currentModuleID`, `currentSectionIndex`, `currentOffset`), the section
bytes being patched, the relocation stream written so far (tagged with
the module block each entry belongs to), the `importInfoBuffer`
(`(moduleId, absolute offset)` pairs) and `fixedRelocationsSize`. -/
structure EncState where
  curModule : Nat
  curSection : Nat
  curOffset : Int
  buf : List Nat
  stream : List (Nat × StreamEntry)
  impInfos : List (Nat × Nat)
  fixedSize : Nat
deriving DecidableEq, Repr

/-- First part of the module-change block: emit `R_DOLPHIN_END` unless
this is the first module (`currentModuleID != -1`). -/
def stepModuleEnd (st : EncState) : EncState :=
  if st.curModule = uMax then st
  else { st with stream := st.stream ++ [(st.curModule, StreamEntry.stop)] }

/-- Second part of the module-change block: record
`fixedRelocationsSize = outputBuffer.size() - relocationOffset` when the
new module's delay strictly exceeds the current one's. -/
def stepModuleFix (selfId m : Nat) (st : EncState) : EncState :=
  if delayOf selfId m > delayOf selfId st.curModule then
    { st with fixedSize := 8 * st.stream.length }
  else st

/-- The module-change block: emit `R_DOLPHIN_END` unless this is the
first module, record `fixedRelocationsSize` when the delay strictly
increases, reset the section cursor, and append the import-info entry
whose offset is the current output size (`relocOffset` plus 8 bytes per
stream entry written so far). -/
def stepModule (selfId relocOffset : Nat) (st : EncState) (m : Nat) : EncState :=
  if st.curModule = m then st
  else
    let st2 := stepModuleFix selfId m (stepModuleEnd st)
    { st2 with
      curModule := m
      curSection := uMax
      impInfos := st2.impInfos ++ [(m, relocOffset + 8 * st2.stream.length)] }

/-- The section-change block: emit `R_DOLPHIN_SECTION` and reset the
offset cursor. -/
def stepSection (st : EncState) (s : Nat) : EncState :=
  if st.curSection = s then st
  else
    { st with
      curSection := s
      curOffset := 0
      stream := st.stream ++ [(st.curModule, StreamEntry.sect s)] }

/-- Body of the NOP-saturation loop, with an explicit iteration bound:
while the remaining delta exceeds `0xFFFF`, emit a NOP and subtract
`0xFFFF`.  Each iteration decreases the delta, so any fuel of at least
`d.toNat` makes this identical to the unbounded `while` loop. -/
def satNopsGo : Nat → Int → Nat × Int
  | 0, d => (0, d)
  | fuel + 1, d =>
    if d > 0xFFFF then
      let r := satNopsGo fuel (d - 0xFFFF)
      (r.1 + 1, r.2)
    else (0, d)

/-- The NOP-saturation loop of the encoder (lines 602-607): returns the
number of `R_DOLPHIN_NOP` entries emitted and the final delta. -/
def satNops (d : Int) : Nat × Int := satNopsGo d.toNat d

/-- Emit the NOPs and the real relocation entry, then re-synchronise the
offset cursor to the entry's original ELF offset. -/
def stepEmit (st : EncState) (r : Relocation) : EncState :=
  let d := (r.offset : Int) - st.curOffset
  { st with
    stream := st.stream ++
      (List.replicate (satNops d).1 (st.curModule, StreamEntry.nop) ++
        [(st.curModule, StreamEntry.real (satNops d).2 r)]),
    curOffset := (r.offset : Int) }

/-- One iteration of the encoder loop: early-resolve eligible
self-relocations (patching the buffer, emitting nothing), otherwise run
the module-change, section-change and emission blocks. -/
def encodeStep (selfId : Nat) (written : Nat → Option Nat) (relocOffset : Nat)
    (st : EncState) (r : Relocation) : Option EncState :=
  if earlyCond selfId r then
    (earlyPatch written st.buf r).map (fun b => { st with buf := b })
  else
    some (stepEmit (stepSection (stepModule selfId relocOffset st r.moduleID) r.srcSection) r)

/-- The encoder loop over the (sorted) relocation list. -/
def encodeLoop (selfId : Nat) (written : Nat → Option Nat) (relocOffset : Nat) :
    List Relocation → EncState → Option EncState
  | [], st => some st
  | r :: rs, st =>
    match encodeStep selfId written relocOffset st r with
    | some st1 => encodeLoop selfId written relocOffset rs st1
    | none => none

/-- Second half of the epilogue: if the last module emitted was not
forced to the back (`delay == 0`), all relocations are included in the
fixed size. -/
def finalizeFix (selfId : Nat) (st : EncState) : EncState :=
  if delayOf selfId st.curModule = 0 then
    { st with fixedSize := 8 * st.stream.length }
  else st

/-- After the loop: emit the final `R_DOLPHIN_END`, then adjust
`fixedRelocationsSize` when the last module's delay is 0. -/
def finalizeEnc (selfId : Nat) (st : EncState) : EncState :=
  finalizeFix selfId { st with stream := st.stream ++ [(st.curModule, StreamEntry.stop)] }

/-- The encoder's initial state (cursors at the `int` `-1` sentinels,
offset cursor 0, nothing written). -/
def initState (buf : List Nat) : EncState :=
  { curModule := uMax, curSection := uMax, curOffset := 0, buf := buf,
    stream := [], impInfos := [], fixedSize := 0 }

/-- The full relocation-encoding phase of `main`: sort, loop, finalise. -/
def encodeRelocations (selfId : Nat) (written : Nat → Option Nat) (relocOffset : Nat)
    (buf : List Nat) (rels : List Relocation) : Option EncState :=
  (encodeLoop selfId written relocOffset (sortRels selfId rels) (initState buf)).map
    (finalizeEnc selfId)

/-- The import-counting loop of `main` (`lastModuleID` starts as the
`int` `-1`, compared against `uint32_t` module IDs). -/
def countImports : Nat → List Relocation → Nat
  | _, [] => 0
  | last, r :: rs =>
    if last ≠ r.moduleID then 1 + countImports r.moduleID rs
    else countImports last rs

/-- `importCount` as computed by `main` over the sorted relocation list. -/
def importCountModel (selfId : Nat) (rels : List Relocation) : Nat :=
  countImports uMax (sortRels selfId rels)

/-- `importInfoSize` written to the header: the byte size of
`importInfoBuffer` (8 bytes per entry actually written). -/
def importInfoSizeOf (st : EncState) : Nat := 8 * st.impInfos.length

/-- The `fixedDataSize` header field as passed to `writeModuleHeader`:
`relocationOffset + fixedRelocationsSize`. -/
def headerFixedDataSize (relocOffset : Nat) (st : EncState) : Nat :=
  relocOffset + st.fixedSize

/-- `requiredPadding` before the import-info table
(line 522: `8 - outputBuffer.size() % 8`). -/
def importRequiredPadding (size : Nat) : Nat := 8 - size % 8

/-- `importInfoOffset`: the buffer size after appending the padding. -/
def importInfoOffsetOf (size : Nat) : Nat := size + importRequiredPadding size

/-- The relocations appearing as real entries of the stream, in order. -/
def realRels (s : List (Nat × StreamEntry)) : List Relocation :=
  s.filterMap (fun p => match p.2 with | .real _ r => some r | _ => none)

/-- The fields of an ELF symbol-table entry used by the relocation
collector. -/
structure SymInfo where
  name : List Char
  value : Nat
  sectionIndex : Nat
deriving DecidableEq, Repr

/-- The per-entry classification of the relocation collector in `main`
(lines 411-475): skip `R_PPC_NONE`; a symbol with a non-zero ELF section
index is a self-relocation (with a non-fatal warning when its target
section is neither written nor NOBITS); otherwise look the name up in
the external symbol map, dropping the entry with an
`Unresolved external symbol` message on a miss.  Returns the collected
relocation (if any) and whether the unwritten-section warning fired. -/
def collectEntry (selfId : Nat) (extMap : SymMap) (writtenDom : Nat → Bool)
    (isNobits : Nat → Bool) (relocatedSectionIndex off rtype : Nat) (addend : Int)
    (sym : SymInfo) : Option Relocation × Bool :=
  if rtype = R_PPC_NONE then (none, false)
  else if sym.sectionIndex ≠ 0 then
    let rel : Relocation :=
      { moduleID := selfId
        srcSection := relocatedSectionIndex
        offset := off % 4294967296
        targetSection := sym.sectionIndex % 256
        addend := wrap32 (addend + (sym.value : Int))
        rtype := rtype % 256 }
    (some rel, !(writtenDom sym.sectionIndex) && !(isNobits sym.sectionIndex))
  else
    match lookupMap extMap sym.name with
    | some loc =>
      (some { moduleID := loc.moduleId
              srcSection := relocatedSectionIndex
              offset := off % 4294967296
              targetSection := loc.targetSection % 256
              addend := wrap32 (addend + (loc.addr : Int))
              rtype := rtype % 256 }, false)
    | none => (none, false)

/-- Proof-auxiliary scanner state for the delta-accounting invariant:
the last real relocation seen since the last separator, the number of
NOPs since then, and whether all checks passed. -/
structure ChkSt where
  lastRel : Option Relocation
  pending : Nat
  ok : Bool
deriving DecidableEq, Repr

/-- Proof-auxiliary scanner step: a real entry must advance the cursor
from the previous real entry in the same section by its encoded offset
plus `0xFFFF` per intervening NOP. -/
def chkStep (c : ChkSt) (p : Nat × StreamEntry) : ChkSt :=
  match p.2 with
  | .real f r =>
    { lastRel := some r
      pending := 0
      ok := c.ok &&
        (match c.lastRel with
         | some r0 => decide (f + 0xFFFF * (c.pending : Int) = (r.offset : Int) - (r0.offset : Int))
         | none => true) }
  | .nop => { c with pending := c.pending + 1 }
  | .sect _ => { lastRel := none, pending := 0, ok := c.ok }
  | .stop => { lastRel := none, pending := 0, ok := c.ok }

/-- Initial scanner state. -/
def chkInit : ChkSt := { lastRel := none, pending := 0, ok := true }

/-- The ordering described by the spec for the emitted relocations:
`delay` ascending, then `moduleId`, then source section, then offset. -/
def claimOrder (selfId : Nat) (a b : Relocation) : Prop :=
  delayOf selfId a.moduleID < delayOf selfId b.moduleID ∨
    (delayOf selfId a.moduleID = delayOf selfId b.moduleID ∧
      (a.moduleID < b.moduleID ∨
        (a.moduleID = b.moduleID ∧
          (a.srcSection < b.srcSection ∨
            (a.srcSection = b.srcSection ∧ a.offset ≤ b.offset)))))

/-- Run-counting over module IDs (the `lastModuleID` loop of `main`,
restated over the projected module-ID list). -/
def countRunsN : Nat → List Nat → Nat
  | _, [] => 0
  | last, x :: xs => if last ≠ x then 1 + countRunsN x xs else countRunsN last xs

theorem stepModuleEnd_curModule (st : EncState) :
    (stepModuleEnd st).curModule = st.curModule := by
  unfold stepModuleEnd; split <;> rfl

theorem stepModuleEnd_curSection (st : EncState) :
    (stepModuleEnd st).curSection = st.curSection := by
  unfold stepModuleEnd; split <;> rfl

theorem stepModuleEnd_curOffset (st : EncState) :
    (stepModuleEnd st).curOffset = st.curOffset := by
  unfold stepModuleEnd; split <;> rfl

theorem stepModuleEnd_buf (st : EncState) : (stepModuleEnd st).buf = st.buf := by
  unfold stepModuleEnd; split <;> rfl

theorem stepModuleEnd_impInfos (st : EncState) :
    (stepModuleEnd st).impInfos = st.impInfos := by
  unfold stepModuleEnd; split <;> rfl

theorem stepModuleEnd_fixedSize (st : EncState) :
    (stepModuleEnd st).fixedSize = st.fixedSize := by
  unfold stepModuleEnd; split <;> rfl

theorem stepModuleEnd_stream (st : EncState) :
    (stepModuleEnd st).stream =
      if st.curModule = uMax then st.stream
      else st.stream ++ [(st.curModule, StreamEntry.stop)] := by
  unfold stepModuleEnd; split <;> simp_all

theorem stepModuleFix_curModule (selfId m : Nat) (st : EncState) :
    (stepModuleFix selfId m st).curModule = st.curModule := by
  unfold stepModuleFix; split <;> rfl

theorem stepModuleFix_curSection (selfId m : Nat) (st : EncState) :
    (stepModuleFix selfId m st).curSection = st.curSection := by
  unfold stepModuleFix; split <;> rfl

theorem stepModuleFix_curOffset (selfId m : Nat) (st : EncState) :
    (stepModuleFix selfId m st).curOffset = st.curOffset := by
  unfold stepModuleFix; split <;> rfl

theorem stepModuleFix_buf (selfId m : Nat) (st : EncState) :
    (stepModuleFix selfId m st).buf = st.buf := by
  unfold stepModuleFix; split <;> rfl

theorem stepModuleFix_impInfos (selfId m : Nat) (st : EncState) :
    (stepModuleFix selfId m st).impInfos = st.impInfos := by
  unfold stepModuleFix; split <;> rfl

theorem stepModuleFix_stream (selfId m : Nat) (st : EncState) :
    (stepModuleFix selfId m st).stream = st.stream := by
  unfold stepModuleFix; split <;> rfl

theorem stepModuleFix_fixedSize (selfId m : Nat) (st : EncState) :
    (stepModuleFix selfId m st).fixedSize =
      if delayOf selfId m > delayOf selfId st.curModule then 8 * st.stream.length
      else st.fixedSize := by
  unfold stepModuleFix; split <;> simp_all

theorem stepModule_eq_of_same (selfId ro : Nat) (st : EncState) (m : Nat)
    (h : st.curModule = m) : stepModule selfId ro st m = st := by
  unfold stepModule; rw [if_pos h]

theorem stepModule_eq_of_ne (selfId ro : Nat) (st : EncState) (m : Nat)
    (h : ¬ st.curModule = m) :
    stepModule selfId ro st m =
      { stepModuleFix selfId m (stepModuleEnd st) with
        curModule := m
        curSection := uMax
        impInfos := (stepModuleFix selfId m (stepModuleEnd st)).impInfos ++
          [(m, ro + 8 * (stepModuleFix selfId m (stepModuleEnd st)).stream.length)] } := by
  unfold stepModule; rw [if_neg h]

theorem stepModule_curModule (selfId ro : Nat) (st : EncState) (m : Nat) :
    (stepModule selfId ro st m).curModule = m := by
  by_cases h : st.curModule = m
  · rw [stepModule_eq_of_same selfId ro st m h]; exact h
  · rw [stepModule_eq_of_ne selfId ro st m h]

theorem stepModule_curOffset (selfId ro : Nat) (st : EncState) (m : Nat) :
    (stepModule selfId ro st m).curOffset = st.curOffset := by
  by_cases h : st.curModule = m
  · rw [stepModule_eq_of_same selfId ro st m h]
  · rw [stepModule_eq_of_ne selfId ro st m h]
    show (stepModuleFix selfId m (stepModuleEnd st)).curOffset = st.curOffset
    rw [stepModuleFix_curOffset, stepModuleEnd_curOffset]

theorem stepModule_buf (selfId ro : Nat) (st : EncState) (m : Nat) :
    (stepModule selfId ro st m).buf = st.buf := by
  by_cases h : st.curModule = m
  · rw [stepModule_eq_of_same selfId ro st m h]
  · rw [stepModule_eq_of_ne selfId ro st m h]
    show (stepModuleFix selfId m (stepModuleEnd st)).buf = st.buf
    rw [stepModuleFix_buf, stepModuleEnd_buf]

theorem stepModule_stream (selfId ro : Nat) (st : EncState) (m : Nat) :
    (stepModule selfId ro st m).stream =
      if st.curModule = m then st.stream else (stepModuleEnd st).stream := by
  by_cases h : st.curModule = m
  · rw [stepModule_eq_of_same selfId ro st m h, if_pos h]
  · rw [stepModule_eq_of_ne selfId ro st m h, if_neg h]
    show (stepModuleFix selfId m (stepModuleEnd st)).stream = (stepModuleEnd st).stream
    rw [stepModuleFix_stream]

theorem stepSection_eq_of_same (st : EncState) (s : Nat) (h : st.curSection = s) :
    stepSection st s = st := by
  unfold stepSection; rw [if_pos h]

theorem stepSection_eq_of_ne (st : EncState) (s : Nat) (h : ¬ st.curSection = s) :
    stepSection st s =
      { st with
        curSection := s
        curOffset := 0
        stream := st.stream ++ [(st.curModule, StreamEntry.sect s)] } := by
  unfold stepSection; rw [if_neg h]

theorem stepSection_curModule (st : EncState) (s : Nat) :
    (stepSection st s).curModule = st.curModule := by
  by_cases h : st.curSection = s
  · rw [stepSection_eq_of_same st s h]
  · rw [stepSection_eq_of_ne st s h]

theorem stepSection_buf (st : EncState) (s : Nat) : (stepSection st s).buf = st.buf := by
  by_cases h : st.curSection = s
  · rw [stepSection_eq_of_same st s h]
  · rw [stepSection_eq_of_ne st s h]

theorem stepSection_impInfos (st : EncState) (s : Nat) :
    (stepSection st s).impInfos = st.impInfos := by
  by_cases h : st.curSection = s
  · rw [stepSection_eq_of_same st s h]
  · rw [stepSection_eq_of_ne st s h]

theorem stepSection_fixedSize (st : EncState) (s : Nat) :
    (stepSection st s).fixedSize = st.fixedSize := by
  by_cases h : st.curSection = s
  · rw [stepSection_eq_of_same st s h]
  · rw [stepSection_eq_of_ne st s h]

theorem stepSection_stream (st : EncState) (s : Nat) :
    (stepSection st s).stream =
      if st.curSection = s then st.stream
      else st.stream ++ [(st.curModule, StreamEntry.sect s)] := by
  by_cases h : st.curSection = s
  · rw [stepSection_eq_of_same st s h, if_pos h]
  · rw [stepSection_eq_of_ne st s h, if_neg h]

theorem stepSection_curOffset (st : EncState) (s : Nat) :
    (stepSection st s).curOffset =
      if st.curSection = s then st.curOffset else 0 := by
  by_cases h : st.curSection = s
  · rw [stepSection_eq_of_same st s h, if_pos h]
  · rw [stepSection_eq_of_ne st s h, if_neg h]

theorem stepSection_curSection (st : EncState) (s : Nat) :
    (stepSection st s).curSection = s := by
  by_cases h : st.curSection = s
  · rw [stepSection_eq_of_same st s h]; exact h
  · rw [stepSection_eq_of_ne st s h]

theorem stepEmit_curModule (st : EncState) (r : Relocation) :
    (stepEmit st r).curModule = st.curModule := rfl

theorem stepEmit_curSection (st : EncState) (r : Relocation) :
    (stepEmit st r).curSection = st.curSection := rfl

theorem stepEmit_curOffset (st : EncState) (r : Relocation) :
    (stepEmit st r).curOffset = (r.offset : Int) := rfl

theorem stepEmit_buf (st : EncState) (r : Relocation) :
    (stepEmit st r).buf = st.buf := rfl

theorem stepEmit_impInfos (st : EncState) (r : Relocation) :
    (stepEmit st r).impInfos = st.impInfos := rfl

theorem stepEmit_fixedSize (st : EncState) (r : Relocation) :
    (stepEmit st r).fixedSize = st.fixedSize := rfl

theorem stepEmit_stream (st : EncState) (r : Relocation) :
    (stepEmit st r).stream = st.stream ++
      (List.replicate (satNops ((r.offset : Int) - st.curOffset)).1
          (st.curModule, StreamEntry.nop) ++
        [(st.curModule, StreamEntry.real (satNops ((r.offset : Int) - st.curOffset)).2 r)]) :=
  rfl

theorem stepEmit_def (st : EncState) (r : Relocation) :
    stepEmit st r =
      { st with
        stream := st.stream ++
          (List.replicate (satNops ((r.offset : Int) - st.curOffset)).1
              (st.curModule, StreamEntry.nop) ++
            [(st.curModule, StreamEntry.real (satNops ((r.offset : Int) - st.curOffset)).2 r)])
        curOffset := (r.offset : Int) } := rfl

theorem find?_append_or (p : (List Char × SymbolLocation) → Bool) (a b : SymMap) :
    (a ++ b).find? p = ((a.find? p).or (b.find? p)) := by
  induction a with
  | nil => simp [Option.or]
  | cons x xs ih =>
    by_cases h : p x <;> simp [List.find?, h, ih, Option.or]

theorem lookupMap_cons_eq (x : List Char × SymbolLocation) (xs : SymMap) (k : List Char)
    (h : x.1 = k) : lookupMap (x :: xs) k = some x.2 := by
  unfold lookupMap
  rw [List.find?_cons_of_pos]
  · rfl
  · simpa using h

theorem lookupMap_cons_ne (x : List Char × SymbolLocation) (xs : SymMap) (k : List Char)
    (h : ¬ x.1 = k) : lookupMap (x :: xs) k = lookupMap xs k := by
  unfold lookupMap
  rw [List.find?_cons_of_neg]
  simpa using h

theorem lookupMap_filter_keep (a b : SymMap) (k : List Char)
    (h : lookupMap a k = none) :
    lookupMap (b.filter (fun p => (lookupMap a p.1).isNone)) k = lookupMap b k := by
  induction b with
  | nil => rfl
  | cons x xs ih =>
    rw [List.filter_cons]
    by_cases hk : x.1 = k
    · have hx : ((lookupMap a x.1).isNone) = true := by rw [hk, h]; rfl
      simp only [hx, if_true]
      rw [lookupMap_cons_eq x _ k hk, lookupMap_cons_eq x xs k hk]
    · by_cases hkeep : ((lookupMap a x.1).isNone) = true
      · simp only [hkeep, if_true]
        rw [lookupMap_cons_ne x _ k hk, lookupMap_cons_ne x xs k hk]
        exact ih
      · simp only [hkeep, if_false]
        rw [lookupMap_cons_ne x xs k hk]
        exact ih

theorem lookupMap_append_or (a c : SymMap) (k : List Char) :
    lookupMap (a ++ c) k = (lookupMap a k).or (lookupMap c k) := by
  unfold lookupMap
  rw [find?_append_or]
  cases List.find? (fun p => p.1 = k) a <;> simp [Option.or]

theorem mergeStd_lookup (a b : SymMap) (k : List Char) :
    lookupMap (mergeStd a b) k = (lookupMap a k).or (lookupMap b k) := by
  unfold mergeStd
  rw [lookupMap_append_or]
  rcases ha : lookupMap a k with _ | v
  · rw [lookupMap_filter_keep a b k ha]
  · rfl

theorem loadAll_go (k : List Char) :
    ∀ (files : List (List String)) (acc m : SymMap),
      List.foldlM
        (fun acc lines => (loadSymbolMapLines lines).map (fun p => mergeStd acc p.1))
        acc files = some m →
      lookupMap m k = (lookupMap acc k).or
        (files.findSome? (fun f => (loadSymbolMapLines f).bind (fun p => lookupMap p.1 k))) := by
  intro files
  induction files with
  | nil =>
    intro acc m h
    simp only [List.foldlM] at h
    cases h
    rw [List.findSome?_nil, Option.or_none]
  | cons f fs ih =>
    intro acc m h
    simp only [List.foldlM] at h
    rcases hf : loadSymbolMapLines f with _ | p
    · rw [hf] at h; simp at h
    · rw [hf] at h
      simp only [Option.map_some', Option.some_bind] at h
      have hih := ih (mergeStd acc p.1) m h
      rw [hih, mergeStd_lookup]
      have hfs : List.findSome?
          (fun f => (loadSymbolMapLines f).bind (fun p => lookupMap p.1 k)) (f :: fs) =
          (lookupMap p.1 k).or (List.findSome?
            (fun f => (loadSymbolMapLines f).bind (fun p => lookupMap p.1 k)) fs) := by
        rw [List.findSome?_cons]
        rw [hf]
        rcases hq : lookupMap p.1 k with _ | w <;> simp [hq, Option.or, Option.some_bind]
      rw [hfs]
      rcases lookupMap acc k with _ | v <;> rcases lookupMap p.1 k with _ | w <;>
        simp [Option.or]

/-- Claim C1 is FALSE on the code: `std::map::merge` does not overwrite
existing keys, so for a symbol name defined in several map files the
merged map keeps the location from the EARLIEST file.  Here `foo` is
`0x100` in the first file and `0x200` in the second, and the merged map
holds `0x100`, not the later file's `0x200`. -/
theorem C1_counterexample :
    loadAll [["100:foo"], ["200:foo"]] =
      some [("foo".toList, ⟨0, 0, 0x100⟩)] ∧
    ¬ (lookupMap [(("foo".toList : List Char), (⟨0, 0, 0x100⟩ : SymbolLocation))]
        "foo".toList = some ⟨0, 0, 0x200⟩) := by
  constructor
  · rfl
  · decide

/-- Claim C1 (amended): when the same symbol NAME appears in more than
one map file, the merged map keeps the `SymbolLocation` from the
EARLIEST file that defines it (first-wins): looking a name up in the
merged map returns the first hit over the loaded files in order. -/
theorem C1_merge_first_wins (files : List (List String)) (m : SymMap) (k : List Char)
    (h : loadAll files = some m) :
    lookupMap m k =
      files.findSome? (fun f => (loadSymbolMapLines f).bind (fun p => lookupMap p.1 k)) := by
  have hgo := loadAll_go k files [] m h
  simpa [lookupMap, Option.or] using hgo

/-- Witness for `C1_merge_first_wins` at the two concrete files of the
counterexample. -/
theorem C1_merge_first_wins_witness :
    lookupMap [(("foo".toList : List Char), (⟨0, 0, 0x100⟩ : SymbolLocation))] "foo".toList =
      [["100:foo"], ["200:foo"]].findSome?
        (fun f => (loadSymbolMapLines f).bind (fun p => lookupMap p.1 "foo".toList)) :=
  C1_merge_first_wins [["100:foo"], ["200:foo"]] [("foo".toList, ⟨0, 0, 0x100⟩)]
    "foo".toList (by rfl)

theorem loadLines_isSome :
    ∀ (lines : List String) (m : SymMap),
      (∀ l ∈ lines, processLineModel l ≠ LineR.overflowAbort) →
      (loadLines lines m).isSome := by
  intro lines
  induction lines with
  | nil => intro m _; simp [loadLines]
  | cons l rest ih =>
    intro m h
    have hl := h l (by simp)
    have hrest : ∀ x ∈ rest, processLineModel x ≠ LineR.overflowAbort :=
      fun x hx => h x (by simp [hx])
    unfold loadLines
    rcases hp : processLineModel l with _ | ⟨n, loc⟩ | _ | _
    · exact ih m hrest
    · exact ih (insertAssign m n loc) hrest
    · simpa using ih m hrest
    · exact absurd hp hl

/-- Claim C9 is FALSE on the code as a universal statement: `parseInt`
catches only `std::invalid_argument`, so a numeric field whose value
overflows `unsigned long` (here a 17-digit hex number) raises an
uncaught `std::out_of_range` and terminates the run instead of being
skipped. -/
theorem C9_counterexample :
    processLineModel "fffffffffffffffff:x" = LineR.overflowAbort ∧
    loadSymbolMapLines ["fffffffffffffffff:x"] = none := by
  constructor <;> rfl

/-- Claim C9 (amended): a line with the wrong number of fields or with a
field that has no valid digits is reported and skipped, and loading
continues; the run never aborts PROVIDED no numeric field overflows the
64-bit `unsigned long` range (such a field raises an uncaught
`std::out_of_range` and terminates the program). -/
theorem C9_malformed_lines_skipped (lines : List String)
    (h : ∀ l ∈ lines, processLineModel l ≠ LineR.overflowAbort) :
    (loadSymbolMapLines lines).isSome ∧
    (∀ l rest m, processLineModel l = LineR.invalid →
      loadLines (l :: rest) m = (loadLines rest m).map (fun p => (p.1, diagMsg l :: p.2))) := by
  refine ⟨loadLines_isSome lines [] h, ?_⟩
  intro l rest m hl
  conv_lhs => rw [loadLines.eq_def]
  simp only [hl]

/-- Witness for `C9_malformed_lines_skipped`: a file with a malformed
line followed by a good one loads successfully. -/
theorem C9_malformed_lines_skipped_witness :
    (loadSymbolMapLines ["hello", "100:foo"]).isSome ∧
    (∀ l rest m, processLineModel l = LineR.invalid →
      loadLines (l :: rest) m = (loadLines rest m).map (fun p => (p.1, diagMsg l :: p.2))) :=
  C9_malformed_lines_skipped ["hello", "100:foo"] (by decide)

/-- Claim C8 is FALSE on the code: at a buffer size that is already a
multiple of 8 (here 80), `requiredPadding` is computed as
`8 - size % 8 = 8`, so eight padding bytes ARE inserted and the
import-info table lands at 88, not at the smallest multiple of 8 that is
`≥ 80` (which is 80 itself). -/
theorem C8_counterexample :
    80 % 8 = 0 ∧ importRequiredPadding 80 = 8 ∧ importInfoOffsetOf 80 = 88 ∧
      importInfoOffsetOf 80 ≠ 80 := by decide

/-- Claim C8 (amended): `importInfoOffset` is the smallest multiple of 8
STRICTLY greater than the buffer size after section data: between 1 and
8 padding bytes are always inserted, 8 of them when the size is already
8-aligned. -/
theorem C8_import_padding (size : Nat) :
    importInfoOffsetOf size = 8 * (size / 8 + 1) ∧
    importInfoOffsetOf size % 8 = 0 ∧
    size < importInfoOffsetOf size ∧
    importInfoOffsetOf size ≤ size + 8 := by
  unfold importInfoOffsetOf importRequiredPadding
  omega

theorem relLT_eq_true_iff (selfId : Nat) (a b : Relocation) :
    relLT selfId a b = true ↔
      (delayOf selfId a.moduleID < delayOf selfId b.moduleID ∨
        (delayOf selfId a.moduleID = delayOf selfId b.moduleID ∧
          (a.moduleID < b.moduleID ∨ (a.moduleID = b.moduleID ∧
            (a.srcSection < b.srcSection ∨
              (a.srcSection = b.srcSection ∧ a.offset < b.offset)))))) := by
  unfold relLT tupLT
  by_cases h : delayOf selfId a.moduleID ≠ delayOf selfId b.moduleID
  · rw [if_pos h]
    simp only [decide_eq_true_eq]
    omega
  · rw [if_neg h]
    simp only [decide_eq_true_eq]
    omega

theorem relLE_iff (selfId : Nat) (a b : Relocation) :
    relLE selfId a b = true ↔ claimOrder selfId a b := by
  have h1 := relLT_eq_true_iff selfId b a
  unfold relLE claimOrder
  constructor
  · intro h
    have h2 : ¬ (relLT selfId b a = true) := by simpa using h
    rw [h1] at h2
    omega
  · intro h
    have h2 : ¬ (relLT selfId b a = true) := by
      rw [h1]
      omega
    simpa using h2

theorem relLE_trans (selfId : Nat) (a b c : Relocation)
    (hab : relLE selfId a b) (hbc : relLE selfId b c) : relLE selfId a c := by
  rw [relLE_iff] at hab hbc ⊢
  unfold claimOrder at hab hbc ⊢
  omega

theorem relLE_total (selfId : Nat) (a b : Relocation) :
    relLE selfId a b || relLE selfId b a := by
  by_cases hb : relLE selfId a b = true
  · simp [hb]
  · have hfalse : ¬ claimOrder selfId a b := fun hc => hb ((relLE_iff selfId a b).mpr hc)
    have hba : claimOrder selfId b a := by
      unfold claimOrder at hfalse ⊢
      omega
    have : relLE selfId b a = true := (relLE_iff selfId b a).mpr hba
    simp [this]

theorem sortRels_pairwise (selfId : Nat) (rels : List Relocation) :
    List.Pairwise (fun a b => relLE selfId a b = true) (sortRels selfId rels) := by
  haveI : IsTotal Relocation (fun a b => relLE selfId a b = true) :=
    ⟨fun a b => by
      have h := relLE_total selfId a b
      rcases (Bool.or_eq_true _ _).mp h with h1 | h1
      · exact Or.inl h1
      · exact Or.inr h1⟩
  haveI : IsTrans Relocation (fun a b => relLE selfId a b = true) :=
    ⟨fun a b c hab hbc => relLE_trans selfId a b c hab hbc⟩
  exact List.sorted_insertionSort _ rels

theorem sortRels_perm (selfId : Nat) (rels : List Relocation) :
    (sortRels selfId rels).Perm rels :=
  List.perm_insertionSort _ rels

theorem realRels_append (s t : List (Nat × StreamEntry)) :
    realRels (s ++ t) = realRels s ++ realRels t := by
  unfold realRels
  exact List.filterMap_append s t _

theorem realRels_replicate_nop (mm n : Nat) :
    realRels (List.replicate n (mm, StreamEntry.nop)) = [] := by
  induction n with
  | zero => rfl
  | succ k ih => simp [List.replicate_succ, realRels, List.filterMap_cons, ih]

theorem realRels_stepModule (selfId ro : Nat) (st : EncState) (m : Nat) :
    realRels (stepModule selfId ro st m).stream = realRels st.stream := by
  rw [stepModule_stream]
  by_cases h1 : st.curModule = m
  · rw [if_pos h1]
  · rw [if_neg h1, stepModuleEnd_stream]
    by_cases h2 : st.curModule = uMax
    · rw [if_pos h2]
    · rw [if_neg h2, realRels_append]
      simp [realRels, List.filterMap_cons]

theorem realRels_stepSection (st : EncState) (s : Nat) :
    realRels (stepSection st s).stream = realRels st.stream := by
  rw [stepSection_stream]
  by_cases h : st.curSection = s
  · rw [if_pos h]
  · rw [if_neg h, realRels_append]
    simp [realRels, List.filterMap_cons]

theorem realRels_stepEmit (st : EncState) (r : Relocation) :
    realRels (stepEmit st r).stream = realRels st.stream ++ [r] := by
  unfold stepEmit
  simp [realRels_append, realRels_replicate_nop, realRels, List.filterMap_cons]

theorem encodeLoop_realRels (selfId : Nat) (written : Nat → Option Nat) (relocOffset : Nat) :
    ∀ (rels : List Relocation) (st res : EncState),
      encodeLoop selfId written relocOffset rels st = some res →
      realRels res.stream = realRels st.stream ++ rels.filter (fun r => !earlyCond selfId r) := by
  intro rels
  induction rels with
  | nil =>
    intro st res h
    simp only [encodeLoop] at h
    cases h
    simp
  | cons r rs ih =>
    intro st res h
    simp only [encodeLoop] at h
    rcases hs : encodeStep selfId written relocOffset st r with _ | st1
    · rw [hs] at h; cases h
    · rw [hs] at h
      have hrec := ih st1 res h
      unfold encodeStep at hs
      by_cases he : earlyCond selfId r = true
      · rw [if_pos he] at hs
        rcases hp : earlyPatch written st.buf r with _ | b
        · rw [hp] at hs; cases hs
        · rw [hp] at hs
          simp only [Option.map_some'] at hs
          cases hs
          rw [hrec]
          simp [List.filter_cons, he]
      · rw [if_neg he] at hs
        cases hs
        rw [hrec, realRels_stepEmit, realRels_stepSection, realRels_stepModule]
        have hne : (!earlyCond selfId r) = true := by simp [he]
        simp [List.filter_cons, hne, List.append_assoc]

theorem finalizeFix_stream (selfId : Nat) (st : EncState) :
    (finalizeFix selfId st).stream = st.stream := by
  unfold finalizeFix; split <;> rfl

theorem finalizeFix_impInfos (selfId : Nat) (st : EncState) :
    (finalizeFix selfId st).impInfos = st.impInfos := by
  unfold finalizeFix; split <;> rfl

theorem finalizeEnc_stream (selfId : Nat) (st : EncState) :
    (finalizeEnc selfId st).stream = st.stream ++ [(st.curModule, StreamEntry.stop)] := by
  unfold finalizeEnc
  rw [finalizeFix_stream]

theorem finalizeEnc_impInfos (selfId : Nat) (st : EncState) :
    (finalizeEnc selfId st).impInfos = st.impInfos := by
  unfold finalizeEnc
  rw [finalizeFix_impInfos]

theorem finalizeEnc_realRels (selfId : Nat) (st : EncState) :
    realRels (finalizeEnc selfId st).stream = realRels st.stream := by
  rw [finalizeEnc_stream, realRels_append]
  simp [realRels, List.filterMap_cons]

theorem encodeRelocations_realRels (selfId : Nat) (written : Nat → Option Nat)
    (relocOffset : Nat) (buf : List Nat) (rels : List Relocation) (res : EncState)
    (h : encodeRelocations selfId written relocOffset buf rels = some res) :
    realRels res.stream = (sortRels selfId rels).filter (fun r => !earlyCond selfId r) := by
  unfold encodeRelocations at h
  rcases hl : encodeLoop selfId written relocOffset (sortRels selfId rels) (initState buf)
      with _ | mid
  · rw [hl] at h; cases h
  · rw [hl] at h
    simp only [Option.map_some'] at h
    cases h
    rw [finalizeEnc_realRels]
    have := encodeLoop_realRels selfId written relocOffset (sortRels selfId rels)
      (initState buf) mid hl
    simpa [initState, realRels] using this

/-- Claim C3: the relocation list is emitted sorted by `delay` ascending
(1 for the DOL and the module itself, else 0), then by `moduleId`, then
by source section, then by offset, all ascending; in particular the
delays are non-decreasing along the stream, so DOL and self-module
relocations come last, and the real entries of the emitted stream appear
in this order. -/
theorem C3_relocation_sort_order (selfId : Nat) (written : Nat → Option Nat)
    (relocOffset : Nat) (buf : List Nat) (rels : List Relocation) (res : EncState)
    (hres : encodeRelocations selfId written relocOffset buf rels = some res) :
    List.Pairwise (claimOrder selfId) (sortRels selfId rels) ∧
    (sortRels selfId rels).Perm rels ∧
    List.Pairwise (fun a b => delayOf selfId a.moduleID ≤ delayOf selfId b.moduleID)
      (sortRels selfId rels) ∧
    List.Pairwise (claimOrder selfId) (realRels res.stream) := by
  have hpw : List.Pairwise (claimOrder selfId) (sortRels selfId rels) :=
    (sortRels_pairwise selfId rels).imp (fun h => (relLE_iff selfId _ _).mp h)
  refine ⟨hpw, sortRels_perm selfId rels, ?_, ?_⟩
  · exact hpw.imp (fun h => by unfold claimOrder at h; omega)
  · rw [encodeRelocations_realRels selfId written relocOffset buf rels res hres]
    exact hpw.sublist (List.filter_sublist _)

/-- Witness for `C3_relocation_sort_order` at a concrete one-relocation
input. -/
theorem C3_relocation_sort_order_witness :
    List.Pairwise (claimOrder 33) (sortRels 33 [⟨1, 2, 0, 5, 7, 1⟩]) ∧
    (sortRels 33 [⟨1, 2, 0, 5, 7, 1⟩]).Perm [⟨1, 2, 0, 5, 7, 1⟩] ∧
    List.Pairwise (fun a b => delayOf 33 a.moduleID ≤ delayOf 33 b.moduleID)
      (sortRels 33 [⟨1, 2, 0, 5, 7, 1⟩]) ∧
    List.Pairwise (claimOrder 33)
      (realRels
        { curModule := 1, curSection := 2, curOffset := 0, buf := [],
          stream := [(1, StreamEntry.sect 2), (1, StreamEntry.real 0 ⟨1, 2, 0, 5, 7, 1⟩),
            (1, StreamEntry.stop)],
          impInfos := [(1, 100)], fixedSize := 24 : EncState }.stream) :=
  C3_relocation_sort_order 33 (fun _ => none) 100 [] [⟨1, 2, 0, 5, 7, 1⟩]
    { curModule := 1, curSection := 2, curOffset := 0, buf := [],
      stream := [(1, StreamEntry.sect 2), (1, StreamEntry.real 0 ⟨1, 2, 0, 5, 7, 1⟩),
        (1, StreamEntry.stop)],
      impInfos := [(1, 100)], fixedSize := 24 }
    (by rfl)

theorem satNopsGo_spec :
    ∀ (fuel : Nat) (d : Int), d ≤ 0xFFFF + (fuel : Int) →
      (satNopsGo fuel d).2 ≤ 0xFFFF ∧ (0 ≤ d → 0 ≤ (satNopsGo fuel d).2) ∧
        (satNopsGo fuel d).2 + 0xFFFF * ((satNopsGo fuel d).1 : Int) = d := by
  intro fuel
  induction fuel with
  | zero =>
    intro d hd
    simp only [satNopsGo]
    refine ⟨by omega, fun h => h, by simp⟩
  | succ k ih =>
    intro d hd
    by_cases h : d > 0xFFFF
    · have hrec := ih (d - 0xFFFF) (by push_cast at hd ⊢; omega)
      simp only [satNopsGo, if_pos h]
      refine ⟨hrec.1, fun _ => hrec.2.1 (by omega), ?_⟩
      have hs := hrec.2.2
      push_cast
      push_cast at hs
      omega
    · simp only [satNopsGo, if_neg h]
      refine ⟨by omega, fun hh => hh, by simp⟩

theorem satNops_snd_le (d : Int) : (satNops d).2 ≤ 0xFFFF :=
  (satNopsGo_spec d.toNat d (by omega)).1

theorem satNops_snd_nonneg (d : Int) (h : 0 ≤ d) : 0 ≤ (satNops d).2 :=
  (satNopsGo_spec d.toNat d (by omega)).2.1 h

theorem satNops_sum (d : Int) :
    (satNops d).2 + 0xFFFF * ((satNops d).1 : Int) = d :=
  (satNopsGo_spec d.toNat d (by omega)).2.2

theorem claimOrder_offset_le (selfId : Nat) (a b : Relocation)
    (h : claimOrder selfId a b) (hm : a.moduleID = b.moduleID)
    (hs : a.srcSection = b.srcSection) : a.offset ≤ b.offset := by
  unfold claimOrder at h
  rw [hm, hs] at h
  omega


theorem stepModule_curSection (selfId ro : Nat) (st : EncState) (m : Nat) :
    (stepModule selfId ro st m).curSection =
      if st.curModule = m then st.curSection else uMax := by
  by_cases h : st.curModule = m
  · rw [stepModule_eq_of_same selfId ro st m h, if_pos h]
  · rw [stepModule_eq_of_ne selfId ro st m h, if_neg h]

theorem encodeLoop_bounds (selfId : Nat) (written : Nat → Option Nat) (ro : Nat) :
    ∀ (rels : List Relocation) (st res : EncState),
      encodeLoop selfId written ro rels st = some res →
      List.Pairwise (fun a b => relLE selfId a b = true) rels →
      (∀ r ∈ rels, r.srcSection ≠ uMax) →
      (∀ r ∈ rels, st.curModule = r.moduleID → st.curSection = r.srcSection →
        st.curOffset ≤ (r.offset : Int)) →
      (∀ p ∈ st.stream, 0 ≤ entryFieldInt p.2 ∧ entryFieldInt p.2 ≤ 0xFFFF) →
      ∀ p ∈ res.stream, 0 ≤ entryFieldInt p.2 ∧ entryFieldInt p.2 ≤ 0xFFFF := by
  intro rels
  induction rels with
  | nil =>
    intro st res h _ _ _ hstream
    simp only [encodeLoop] at h
    cases h
    exact hstream
  | cons r rs ih =>
    intro st res h hpw hsec hP hstream
    simp only [encodeLoop] at h
    rcases hs : encodeStep selfId written ro st r with _ | st1
    · rw [hs] at h; cases h
    · rw [hs] at h
      unfold encodeStep at hs
      by_cases he : earlyCond selfId r = true
      · rw [if_pos he] at hs
        rcases hp : earlyPatch written st.buf r with _ | b
        · rw [hp] at hs; cases hs
        · rw [hp] at hs
          simp only [Option.map_some'] at hs
          cases hs
          exact ih _ res h hpw.of_cons (fun x hx => hsec x (by simp [hx]))
            (fun x hx h1 h2 => hP x (by simp [hx]) h1 h2) hstream
      · rw [if_neg he] at hs
        cases hs
        have hsecr : r.srcSection ≠ uMax := hsec r (by simp)
        -- abbreviations for the three intermediate states
        set stA := stepModule selfId ro st r.moduleID with hstA
        set stB := stepSection stA r.srcSection with hstB
        -- cursor facts
        have hBmod : stB.curModule = r.moduleID := by
          rw [hstB, stepSection_curModule, hstA, stepModule_curModule]
        have hBsec : stB.curSection = r.srcSection := by
          rw [hstB, stepSection_curSection]
        have hBoff : 0 ≤ (r.offset : Int) - stB.curOffset := by
          rw [hstB, stepSection_curOffset]
          by_cases hsame : stA.curSection = r.srcSection
          · rw [if_pos hsame]
            rw [hstA, stepModule_curSection] at hsame
            by_cases hm : st.curModule = r.moduleID
            · rw [if_pos hm] at hsame
              have := hP r (by simp) hm hsame
              rw [hstA, stepModule_curOffset]
              omega
            · rw [if_neg hm] at hsame
              exact absurd hsame.symm hsecr
          · rw [if_neg hsame]
            simp
        -- bounds on the entries appended by the three blocks
        have hstreamB : ∀ p ∈ stB.stream, 0 ≤ entryFieldInt p.2 ∧ entryFieldInt p.2 ≤ 0xFFFF := by
          intro p hpmem
          rw [hstB, stepSection_stream] at hpmem
          have hpA : ∀ q ∈ stA.stream, 0 ≤ entryFieldInt q.2 ∧ entryFieldInt q.2 ≤ 0xFFFF := by
            intro q hq
            rw [hstA, stepModule_stream] at hq
            by_cases hm : st.curModule = r.moduleID
            · rw [if_pos hm] at hq; exact hstream q hq
            · rw [if_neg hm, stepModuleEnd_stream] at hq
              by_cases hu : st.curModule = uMax
              · rw [if_pos hu] at hq; exact hstream q hq
              · rw [if_neg hu] at hq
                rcases List.mem_append.mp hq with hq | hq
                · exact hstream q hq
                · simp only [List.mem_singleton] at hq
                  subst hq
                  simp [entryFieldInt]
          by_cases hsame : stA.curSection = r.srcSection
          · rw [if_pos hsame] at hpmem; exact hpA p hpmem
          · rw [if_neg hsame] at hpmem
            rcases List.mem_append.mp hpmem with hq | hq
            · exact hpA p hq
            · simp only [List.mem_singleton] at hq
              subst hq
              simp [entryFieldInt]
        have hstream3 : ∀ p ∈ (stepEmit stB r).stream,
            0 ≤ entryFieldInt p.2 ∧ entryFieldInt p.2 ≤ 0xFFFF := by
          intro p hpmem
          rw [stepEmit_stream] at hpmem
          rcases List.mem_append.mp hpmem with hq | hq
          · exact hstreamB p hq
          · rcases List.mem_append.mp hq with hq2 | hq2
            · have := List.eq_of_mem_replicate hq2
              subst this
              simp [entryFieldInt]
            · simp only [List.mem_singleton] at hq2
              subst hq2
              simp only [entryFieldInt]
              exact ⟨satNops_snd_nonneg _ hBoff, satNops_snd_le _⟩
        -- invariant for the tail
        refine ih _ res h hpw.of_cons (fun x hx => hsec x (by simp [hx])) ?_ hstream3
        intro x hx h1 h2
        rw [stepEmit_curModule, hBmod] at h1
        rw [stepEmit_curSection, hBsec] at h2
        rw [stepEmit_curOffset]
        have hle : relLE selfId r x = true := by
          have := hpw
          rw [List.pairwise_cons] at this
          exact this.1 x hx
        have hco := (relLE_iff selfId r x).mp hle
        have := claimOrder_offset_le selfId r x hco h1 h2
        exact_mod_cast this

/-- Claim C5: every 8-byte entry written to the relocation stream — real
relocations as well as the `R_DOLPHIN_NOP` / `R_DOLPHIN_SECTION` /
`R_DOLPHIN_END` pseudo-entries — carries an offset-field value between 0
and `0xFFFF`; larger deltas are split by the saturation loop into NOP
entries whose offset field is exactly `0xFFFF` (the `nop` constructor).
The unused bound hypothesis records the envelope in which the `Nat`/`Int`
model matches the C++ `int` arithmetic. -/
theorem C5_offset_field_bounded (selfId : Nat) (written : Nat → Option Nat)
    (relocOffset : Nat) (buf : List Nat) (rels : List Relocation) (res : EncState)
    (hsec : ∀ r ∈ rels, r.srcSection ≠ uMax)
    (_hoff32 : ∀ r ∈ rels, r.offset < 2147483648)
    (hres : encodeRelocations selfId written relocOffset buf rels = some res) :
    ∀ p ∈ res.stream, 0 ≤ entryFieldInt p.2 ∧ entryFieldInt p.2 ≤ 0xFFFF := by
  unfold encodeRelocations at hres
  rcases hl : encodeLoop selfId written relocOffset (sortRels selfId rels) (initState buf)
      with _ | mid
  · rw [hl] at hres; cases hres
  · rw [hl] at hres
    simp only [Option.map_some'] at hres
    cases hres
    have hsorted := sortRels_pairwise selfId rels
    have hsec2 : ∀ r ∈ sortRels selfId rels, r.srcSection ≠ uMax := by
      intro r hr
      exact hsec r ((sortRels_perm selfId rels).mem_iff.mp hr)
    have hmid := encodeLoop_bounds selfId written relocOffset (sortRels selfId rels)
      (initState buf) mid hl hsorted hsec2
      (by
        intro x hx h1 h2
        exact absurd h2.symm (hsec2 x hx))
      (by intro p hp; simp [initState] at hp)
    intro p hp
    rw [finalizeEnc_stream] at hp
    rcases List.mem_append.mp hp with hq | hq
    · exact hmid p hq
    · simp only [List.mem_singleton] at hq
      subst hq
      simp [entryFieldInt]

/-- Witness for `C5_offset_field_bounded` at the spec's own saturation
scenario (offsets `0` and `0x20000` in one section, split into two NOPs
and a final delta of 2). -/
theorem C5_offset_field_bounded_witness :
    0 ≤ entryFieldInt ((1, StreamEntry.nop) : Nat × StreamEntry).2 ∧
      entryFieldInt ((1, StreamEntry.nop) : Nat × StreamEntry).2 ≤ 0xFFFF :=
  C5_offset_field_bounded 33 (fun _ => none) 100 []
    [⟨1, 2, 0, 5, 7, 1⟩, ⟨1, 2, 0x20000, 5, 9, 1⟩]
    (EncState.mk 1 2 131072 []
      [(1, StreamEntry.sect 2), (1, StreamEntry.real 0 ⟨1, 2, 0, 5, 7, 1⟩),
        (1, StreamEntry.nop), (1, StreamEntry.nop),
        (1, StreamEntry.real 2 ⟨1, 2, 131072, 5, 9, 1⟩), (1, StreamEntry.stop)]
      [(1, 100)] 48)
    (by decide) (by decide)
    (by rfl)
    (1, StreamEntry.nop) (by decide)

theorem chkStep_stop (c : ChkSt) (m : Nat) :
    chkStep c (m, StreamEntry.stop) = ⟨none, 0, c.ok⟩ := rfl

theorem chkStep_sect (c : ChkSt) (m s : Nat) :
    chkStep c (m, StreamEntry.sect s) = ⟨none, 0, c.ok⟩ := rfl

theorem chkStep_nop (c : ChkSt) (m : Nat) :
    chkStep c (m, StreamEntry.nop) = { c with pending := c.pending + 1 } := rfl

theorem chkStep_real (c : ChkSt) (m : Nat) (f : Int) (r : Relocation) :
    chkStep c (m, StreamEntry.real f r) =
      ⟨some r, 0, c.ok &&
        (match c.lastRel with
         | some r0 => decide (f + 0xFFFF * (c.pending : Int) = (r.offset : Int) - (r0.offset : Int))
         | none => true)⟩ := rfl

theorem chkRun_ok_mono :
    ∀ (s : List (Nat × StreamEntry)) (c : ChkSt),
      (List.foldl chkStep c s).ok = true → c.ok = true := by
  intro s
  induction s with
  | nil => intro c h; exact h
  | cons x xs ih =>
    intro c h
    rw [List.foldl_cons] at h
    have hx := ih _ h
    rcases x with ⟨mm, e⟩
    cases e with
    | real f r =>
      rw [chkStep_real] at hx
      exact (Bool.and_eq_true _ _).mp hx |>.1
    | nop => rw [chkStep_nop] at hx; exact hx
    | sect s => rw [chkStep_sect] at hx; exact hx
    | stop => rw [chkStep_stop] at hx; exact hx

theorem chkRun_nops :
    ∀ (mid : List (Nat × StreamEntry)) (c : ChkSt),
      (∀ p ∈ mid, p.2 = StreamEntry.nop) →
      List.foldl chkStep c mid = { c with pending := c.pending + mid.length } := by
  intro mid
  induction mid with
  | nil => intro c _; simp
  | cons x xs ih =>
    intro c hx
    rw [List.foldl_cons]
    have hxn : x.2 = StreamEntry.nop := hx x (by simp)
    have hx1 : chkStep c x = { c with pending := c.pending + 1 } := by
      rcases x with ⟨mm, e⟩
      simp only at hxn
      rw [hxn]
      exact chkStep_nop c mm
    rw [hx1, ih _ (fun p hp => hx p (by simp [hp]))]
    have : c.pending + 1 + xs.length = c.pending + (xs.length + 1) := by omega
    simp [this]

theorem chkRun_decomp (s1 mid s2 : List (Nat × StreamEntry)) (m1 m2 : Nat)
    (f1 f2 : Int) (r1 r2 : Relocation)
    (hok : (List.foldl chkStep chkInit
      (s1 ++ (m1, StreamEntry.real f1 r1) :: (mid ++ (m2, StreamEntry.real f2 r2) :: s2))).ok
        = true)
    (hmid : ∀ p ∈ mid, p.2 = StreamEntry.nop) :
    f2 + 0xFFFF * (mid.length : Int) = (r2.offset : Int) - (r1.offset : Int) := by
  rw [List.foldl_append] at hok
  rw [List.foldl_cons] at hok
  rw [chkStep_real] at hok
  rw [List.foldl_append] at hok
  rw [chkRun_nops mid _ hmid] at hok
  rw [List.foldl_cons] at hok
  rw [chkStep_real] at hok
  have h2 := chkRun_ok_mono s2 _ hok
  simp only [Bool.and_eq_true] at h2
  have h3 := h2.2
  simp only [Nat.zero_add] at h3
  exact of_decide_eq_true h3

theorem chk_append_sect (base : List (Nat × StreamEntry)) (mm s : Nat) :
    List.foldl chkStep chkInit (base ++ [(mm, StreamEntry.sect s)]) =
      ⟨none, 0, (List.foldl chkStep chkInit base).ok⟩ := by
  rw [List.foldl_append, List.foldl_cons, List.foldl_nil, chkStep_sect]

theorem chk_append_stop (base : List (Nat × StreamEntry)) (mm : Nat) :
    List.foldl chkStep chkInit (base ++ [(mm, StreamEntry.stop)]) =
      ⟨none, 0, (List.foldl chkStep chkInit base).ok⟩ := by
  rw [List.foldl_append, List.foldl_cons, List.foldl_nil, chkStep_stop]

theorem chk_after_emit (base : List (Nat × StreamEntry)) (mm k : Nat) (f : Int)
    (r : Relocation) :
    List.foldl chkStep chkInit
        (base ++ (List.replicate k (mm, StreamEntry.nop) ++ [(mm, StreamEntry.real f r)])) =
      ⟨some r, 0, (List.foldl chkStep chkInit base).ok &&
        (match (List.foldl chkStep chkInit base).lastRel with
         | some r0 => decide (f + 0xFFFF *
             ((((List.foldl chkStep chkInit base).pending + k : Nat)) : Int) =
               (r.offset : Int) - (r0.offset : Int))
         | none => true)⟩ := by
  rw [List.foldl_append, List.foldl_append]
  rw [chkRun_nops (List.replicate k (mm, StreamEntry.nop)) _
    (fun p hp => by rw [List.eq_of_mem_replicate hp])]
  rw [List.foldl_cons, List.foldl_nil, chkStep_real]
  simp

theorem encodeLoop_chk (selfId : Nat) (written : Nat → Option Nat) (ro : Nat) :
    ∀ (rels : List Relocation) (st res : EncState),
      encodeLoop selfId written ro rels st = some res →
      (∀ r ∈ rels, r.srcSection ≠ uMax) →
      (List.foldl chkStep chkInit st.stream).ok = true →
      (List.foldl chkStep chkInit st.stream).pending = 0 →
      (∀ r0, (List.foldl chkStep chkInit st.stream).lastRel = some r0 →
        st.curOffset = (r0.offset : Int)) →
      (List.foldl chkStep chkInit res.stream).ok = true ∧
      (List.foldl chkStep chkInit res.stream).pending = 0 ∧
      (∀ r0, (List.foldl chkStep chkInit res.stream).lastRel = some r0 →
        res.curOffset = (r0.offset : Int)) := by
  intro rels
  induction rels with
  | nil =>
    intro st res h _ hok hpend hlast
    simp only [encodeLoop] at h
    cases h
    exact ⟨hok, hpend, hlast⟩
  | cons r rs ih =>
    intro st res h hsec hok hpend hlast
    simp only [encodeLoop] at h
    rcases hs : encodeStep selfId written ro st r with _ | st1
    · rw [hs] at h; cases h
    · rw [hs] at h
      unfold encodeStep at hs
      by_cases he : earlyCond selfId r = true
      · rw [if_pos he] at hs
        rcases hp : earlyPatch written st.buf r with _ | b
        · rw [hp] at hs; cases hs
        · rw [hp] at hs
          simp only [Option.map_some'] at hs
          cases hs
          exact ih _ res h (fun x hx => hsec x (by simp [hx])) hok hpend hlast
      · rw [if_neg he] at hs
        cases hs
        have hsecr : r.srcSection ≠ uMax := hsec r (by simp)
        set stA := stepModule selfId ro st r.moduleID with hstA
        set stB := stepSection stA r.srcSection with hstB
        set dd : Int := (r.offset : Int) - stB.curOffset with hdd
        -- facts about the chk state after stB.stream, by cases
        have hB : (List.foldl chkStep chkInit stB.stream).ok = true ∧
            (List.foldl chkStep chkInit stB.stream).pending = 0 ∧
            (∀ r0, (List.foldl chkStep chkInit stB.stream).lastRel = some r0 →
              stB.curOffset = (r0.offset : Int)) := by
          by_cases hm : st.curModule = r.moduleID
          · have hAeq : stA = st := by rw [hstA, stepModule_eq_of_same _ _ _ _ hm]
            by_cases hsame : st.curSection = r.srcSection
            · have hBeq : stB = st := by
                rw [hstB, hAeq, stepSection_eq_of_same _ _ hsame]
              rw [hBeq]
              exact ⟨hok, hpend, hlast⟩
            · have hBeq : stB = { st with
                  curSection := r.srcSection
                  curOffset := 0
                  stream := st.stream ++ [(st.curModule, StreamEntry.sect r.srcSection)] } := by
                rw [hstB, hAeq, stepSection_eq_of_ne _ _ hsame]
              rw [hBeq]
              simp only [chk_append_sect]
              exact ⟨hok, by trivial, by intro r0 hr0; cases hr0⟩
          · -- module changed: stA.curSection = uMax ≠ srcSection, so a sect separator is emitted
            have hAsec : stA.curSection = uMax := by
              rw [hstA, stepModule_curSection, if_neg hm]
            have hAsame : ¬ stA.curSection = r.srcSection := by
              rw [hAsec]
              exact fun hcon => hsecr hcon.symm
            have hBeq : stB = { stA with
                curSection := r.srcSection
                curOffset := 0
                stream := stA.stream ++ [(stA.curModule, StreamEntry.sect r.srcSection)] } := by
              rw [hstB, stepSection_eq_of_ne _ _ hAsame]
            have hAok : (List.foldl chkStep chkInit stA.stream).ok = true := by
              rw [hstA, stepModule_stream, if_neg hm, stepModuleEnd_stream]
              by_cases hu : st.curModule = uMax
              · rw [if_pos hu]; exact hok
              · rw [if_neg hu, chk_append_stop]; exact hok
            rw [hBeq]
            simp only [chk_append_sect]
            exact ⟨hAok, by trivial, by intro r0 hr0; cases hr0⟩
        -- the chk state after the emitted block
        have h3stream : (stepEmit stB r).stream =
            stB.stream ++ (List.replicate (satNops dd).1 (stB.curModule, StreamEntry.nop) ++
              [(stB.curModule, StreamEntry.real (satNops dd).2 r)]) := by
          rw [stepEmit_stream, hdd]
        have h3 := chk_after_emit stB.stream stB.curModule (satNops dd).1 (satNops dd).2 r
        rw [← h3stream] at h3
        have hcheck : ((List.foldl chkStep chkInit stB.stream).ok &&
            (match (List.foldl chkStep chkInit stB.stream).lastRel with
             | some r0 => decide ((satNops dd).2 + 0xFFFF *
                 ((((List.foldl chkStep chkInit stB.stream).pending + (satNops dd).1 : Nat)) : Int) =
                   (r.offset : Int) - (r0.offset : Int))
             | none => true)) = true := by
          rw [hB.1, Bool.true_and]
          rcases hlastB : (List.foldl chkStep chkInit stB.stream).lastRel with _ | r0
          · rfl
          · have hoffB := hB.2.2 r0 hlastB
            rw [hB.2.1]
            simp only [Nat.zero_add]
            rw [decide_eq_true_eq]
            have hdd2 : dd = (r.offset : Int) - (r0.offset : Int) := by
              rw [hdd, hoffB]
            rw [← hdd2]
            exact satNops_sum dd
        refine ih (stepEmit stB r) res h (fun x hx => hsec x (by simp [hx])) ?_ ?_ ?_
        · rw [h3]
          simp only
          exact hcheck
        · rw [h3]
        · intro r0 hr0
          rw [h3] at hr0
          simp only at hr0
          cases hr0
          rw [stepEmit_curOffset]

/-- Claim C6: for any two consecutive real relocations emitted with only
`R_DOLPHIN_NOP` entries between them (hence in the same source section),
the encoded offset field of the second one plus `0xFFFF` for each NOP
between them equals the difference of their original ELF offsets. -/
theorem C6_nop_delta_sum (selfId : Nat) (written : Nat → Option Nat)
    (relocOffset : Nat) (buf : List Nat) (rels : List Relocation) (res : EncState)
    (hsec : ∀ r ∈ rels, r.srcSection ≠ uMax)
    (_hoff32 : ∀ r ∈ rels, r.offset < 2147483648)
    (hres : encodeRelocations selfId written relocOffset buf rels = some res) :
    ∀ (s1 mid s2 : List (Nat × StreamEntry)) (m1 m2 : Nat) (f1 f2 : Int)
      (r1 r2 : Relocation),
      res.stream = s1 ++ (m1, StreamEntry.real f1 r1) ::
        (mid ++ (m2, StreamEntry.real f2 r2) :: s2) →
      (∀ p ∈ mid, p.2 = StreamEntry.nop) →
      f2 + 0xFFFF * (mid.length : Int) = (r2.offset : Int) - (r1.offset : Int) := by
  unfold encodeRelocations at hres
  rcases hl : encodeLoop selfId written relocOffset (sortRels selfId rels) (initState buf)
      with _ | stMid
  · rw [hl] at hres; cases hres
  · rw [hl] at hres
    simp only [Option.map_some'] at hres
    cases hres
    have hsec2 : ∀ r ∈ sortRels selfId rels, r.srcSection ≠ uMax := by
      intro r hr
      exact hsec r ((sortRels_perm selfId rels).mem_iff.mp hr)
    have hchk := encodeLoop_chk selfId written relocOffset (sortRels selfId rels)
      (initState buf) stMid hl hsec2 (by rfl) (by rfl)
      (by intro r0 hr0; cases hr0)
    have hok : (List.foldl chkStep chkInit
        ((finalizeEnc selfId stMid).stream)).ok = true := by
      rw [finalizeEnc_stream, chk_append_stop]
      exact hchk.1
    intro s1 mid s2 m1 m2 f1 f2 r1 r2 hdecomp hmid
    rw [hdecomp] at hok
    exact chkRun_decomp s1 mid s2 m1 m2 f1 f2 r1 r2 hok hmid

/-- Witness for `C6_nop_delta_sum` at the saturation scenario: the second
real entry's field 2 plus two NOPs of `0xFFFF` equals `0x20000 - 0`. -/
theorem C6_nop_delta_sum_witness :
    (2 : Int) + 0xFFFF * (([((1 : Nat), StreamEntry.nop), (1, StreamEntry.nop)]).length : Int) =
      ((131072 : Nat) : Int) - ((0 : Nat) : Int) :=
  C6_nop_delta_sum 33 (fun _ => none) 100 []
    [⟨1, 2, 0, 5, 7, 1⟩, ⟨1, 2, 0x20000, 5, 9, 1⟩]
    (EncState.mk 1 2 131072 []
      [(1, StreamEntry.sect 2), (1, StreamEntry.real 0 ⟨1, 2, 0, 5, 7, 1⟩),
        (1, StreamEntry.nop), (1, StreamEntry.nop),
        (1, StreamEntry.real 2 ⟨1, 2, 131072, 5, 9, 1⟩), (1, StreamEntry.stop)]
      [(1, 100)] 48)
    (by decide) (by decide)
    (by rfl)
    [(1, StreamEntry.sect 2)] [(1, StreamEntry.nop), (1, StreamEntry.nop)]
    [(1, StreamEntry.stop)] 1 1 0 2 ⟨1, 2, 0, 5, 7, 1⟩ ⟨1, 2, 131072, 5, 9, 1⟩
    (by rfl) (by decide)

theorem delayOf_le_one (selfId x : Nat) : delayOf selfId x ≤ 1 := by
  unfold delayOf; split <;> omega

theorem relLE_delay_le (selfId : Nat) (a b : Relocation) (h : relLE selfId a b = true) :
    delayOf selfId a.moduleID ≤ delayOf selfId b.moduleID := by
  have hco := (relLE_iff selfId a b).mp h
  unfold claimOrder at hco
  omega

theorem split_extend {α : Type} (P0 P1 : α → Prop) (k : Nat) (s tail : List α)
    (hk : k ≤ s.length)
    (htake : ∀ p ∈ s.take k, P0 p) (hdrop : ∀ p ∈ s.drop k, P1 p)
    (htail : ∀ p ∈ tail, P1 p) :
    k ≤ (s ++ tail).length ∧ (∀ p ∈ (s ++ tail).take k, P0 p) ∧
      (∀ p ∈ (s ++ tail).drop k, P1 p) := by
  refine ⟨by rw [List.length_append]; omega, ?_, ?_⟩
  · rw [List.take_append_of_le_length hk]
    exact htake
  · rw [List.drop_append_of_le_length hk]
    intro p hp
    rcases List.mem_append.mp hp with hp | hp
    · exact hdrop p hp
    · exact htail p hp

theorem split_start {α : Type} (P0 P1 : α → Prop) (s tail : List α)
    (hall : ∀ p ∈ s, P0 p) (htail : ∀ p ∈ tail, P1 p) :
    s.length ≤ (s ++ tail).length ∧ (∀ p ∈ (s ++ tail).take s.length, P0 p) ∧
      (∀ p ∈ (s ++ tail).drop s.length, P1 p) := by
  refine ⟨by rw [List.length_append]; omega, ?_, ?_⟩
  · rw [List.take_left]
    exact hall
  · rw [List.drop_left]
    exact htail

theorem encodeLoop_fixed (selfId : Nat) (written : Nat → Option Nat) (ro : Nat) :
    ∀ (rels : List Relocation) (st res : EncState),
      encodeLoop selfId written ro rels st = some res →
      List.Pairwise (fun a b => relLE selfId a b = true) rels →
      (∀ r ∈ rels, delayOf selfId st.curModule ≤ delayOf selfId r.moduleID) →
      ((delayOf selfId st.curModule = 0 ∧ st.fixedSize = 0 ∧
          ∀ p ∈ st.stream, delayOf selfId p.1 = 0) ∨
        (delayOf selfId st.curModule = 1 ∧ ∃ k, st.fixedSize = 8 * k ∧
          k ≤ st.stream.length ∧
          (∀ p ∈ st.stream.take k, delayOf selfId p.1 = 0) ∧
          (∀ p ∈ st.stream.drop k, delayOf selfId p.1 = 1))) →
      ((delayOf selfId res.curModule = 0 ∧ res.fixedSize = 0 ∧
          ∀ p ∈ res.stream, delayOf selfId p.1 = 0) ∨
        (delayOf selfId res.curModule = 1 ∧ ∃ k, res.fixedSize = 8 * k ∧
          k ≤ res.stream.length ∧
          (∀ p ∈ res.stream.take k, delayOf selfId p.1 = 0) ∧
          (∀ p ∈ res.stream.drop k, delayOf selfId p.1 = 1))) := by
  intro rels
  induction rels with
  | nil =>
    intro st res h _ _ hinv
    simp only [encodeLoop] at h
    cases h
    exact hinv
  | cons r rs ih =>
    intro st res h hpw hdel hinv
    simp only [encodeLoop] at h
    rcases hs : encodeStep selfId written ro st r with _ | st1
    · rw [hs] at h; cases h
    · rw [hs] at h
      unfold encodeStep at hs
      by_cases he : earlyCond selfId r = true
      · rw [if_pos he] at hs
        rcases hp : earlyPatch written st.buf r with _ | b
        · rw [hp] at hs; cases hs
        · rw [hp] at hs
          simp only [Option.map_some'] at hs
          cases hs
          exact ih _ res h hpw.of_cons (fun x hx => hdel x (by simp [hx])) hinv
      · rw [if_neg he] at hs
        cases hs
        set stA := stepModule selfId ro st r.moduleID with hstA
        set stB := stepSection stA r.srcSection with hstB
        have hAmod : stA.curModule = r.moduleID := by
          rw [hstA, stepModule_curModule]
        have hBmod : stB.curModule = r.moduleID := by
          rw [hstB, stepSection_curModule, hAmod]
        have h3mod : (stepEmit stB r).curModule = r.moduleID := by
          rw [stepEmit_curModule, hBmod]
        have hdm := hdel r (by simp)
        -- the entries appended after stA are all tagged with r.moduleID
        have h3s : ∃ tail, (stepEmit stB r).stream = stA.stream ++ tail ∧
            ∀ p ∈ tail, p.1 = r.moduleID := by
          rw [stepEmit_stream, hBmod]
          rw [hstB, stepSection_stream]
          by_cases hbs : stA.curSection = r.srcSection
          · rw [if_pos hbs]
            refine ⟨_, rfl, ?_⟩
            intro p hp
            rcases List.mem_append.mp hp with hp | hp
            · rw [List.eq_of_mem_replicate hp]
            · simp only [List.mem_singleton] at hp
              rw [hp]
          · rw [if_neg hbs, List.append_assoc]
            refine ⟨_, rfl, ?_⟩
            intro p hp
            simp only [List.singleton_append, List.mem_cons] at hp
            rcases hp with hp | hp
            · rw [hp]
              exact hAmod
            · rcases List.mem_append.mp hp with hp | hp
              · rw [List.eq_of_mem_replicate hp]
              · simp only [List.mem_singleton] at hp
                rw [hp]
        rcases h3s with ⟨tail, h3seq, h3tag⟩
        have h3fix : (stepEmit stB r).fixedSize = stA.fixedSize := by
          rw [stepEmit_fixedSize, hstB, stepSection_fixedSize]
        -- invariant for the state handed to the recursive call
        have hinv3 : (delayOf selfId (stepEmit stB r).curModule = 0 ∧
            (stepEmit stB r).fixedSize = 0 ∧
            ∀ p ∈ (stepEmit stB r).stream, delayOf selfId p.1 = 0) ∨
            (delayOf selfId (stepEmit stB r).curModule = 1 ∧
              ∃ k, (stepEmit stB r).fixedSize = 8 * k ∧
                k ≤ (stepEmit stB r).stream.length ∧
                (∀ p ∈ (stepEmit stB r).stream.take k, delayOf selfId p.1 = 0) ∧
                (∀ p ∈ (stepEmit stB r).stream.drop k, delayOf selfId p.1 = 1)) := by
          by_cases hm : st.curModule = r.moduleID
          · -- no module change: stA = st
            have hAeq : stA = st := by rw [hstA, stepModule_eq_of_same _ _ _ _ hm]
            have hdmc : delayOf selfId r.moduleID = delayOf selfId st.curModule := by
              rw [hm]
            rcases hinv with ⟨hdc0, hfix0, hall0⟩ | ⟨hdc1, k, hfix, hkle, htake, hdrop⟩
            · left
              refine ⟨by rw [h3mod, hdmc, hdc0], by rw [h3fix, hAeq, hfix0], ?_⟩
              intro p hp
              rw [h3seq, hAeq] at hp
              rcases List.mem_append.mp hp with hp | hp
              · exact hall0 p hp
              · rw [h3tag p hp, hdmc, hdc0]
            · right
              refine ⟨by rw [h3mod, hdmc, hdc1], k, by rw [h3fix, hAeq, hfix], ?_⟩
              have := split_extend (fun p => delayOf selfId p.1 = 0)
                (fun p => delayOf selfId p.1 = 1) k st.stream tail hkle htake hdrop
                (fun p hp => by
                  show delayOf selfId p.1 = 1
                  rw [h3tag p hp, hdmc, hdc1])
              rw [h3seq, hAeq]
              exact this
          · -- module change
            have hAs : stA.stream = st.stream ∨
                stA.stream = st.stream ++ [(st.curModule, StreamEntry.stop)] := by
              rw [hstA, stepModule_stream, if_neg hm, stepModuleEnd_stream]
              by_cases hu : st.curModule = uMax
              · rw [if_pos hu]; left; rfl
              · rw [if_neg hu]; right; rfl
            have hAtag : ∀ p ∈ stA.stream, p ∈ st.stream ∨ p.1 = st.curModule := by
              rcases hAs with hAs | hAs <;> rw [hAs] <;> intro p hp
              · exact Or.inl hp
              · rcases List.mem_append.mp hp with hp | hp
                · exact Or.inl hp
                · simp only [List.mem_singleton] at hp
                  rw [hp]
                  exact Or.inr rfl
            have hAstream : stA.stream = (stepModuleEnd st).stream := by
              rw [hstA, stepModule_stream, if_neg hm]
            have hAfix : stA.fixedSize =
                if delayOf selfId r.moduleID > delayOf selfId st.curModule then
                  8 * stA.stream.length
                else st.fixedSize := by
              have h1 : stA.fixedSize =
                  (stepModuleFix selfId r.moduleID (stepModuleEnd st)).fixedSize := by
                rw [hstA, stepModule_eq_of_ne _ _ _ _ hm]
              rw [h1, stepModuleFix_fixedSize, stepModuleEnd_curModule,
                stepModuleEnd_fixedSize, hAstream]
            rcases hinv with ⟨hdc0, hfix0, hall0⟩ | ⟨hdc1, k, hfix, hkle, htake, hdrop⟩
            · -- invariant case A
              have hallA : ∀ p ∈ stA.stream, delayOf selfId p.1 = 0 := by
                intro p hp
                rcases hAtag p hp with hp | hp
                · exact hall0 p hp
                · rw [hp]; exact hdc0
              rcases Nat.lt_or_ge (delayOf selfId st.curModule) (delayOf selfId r.moduleID)
                  with hlt | hge
              · -- delay increases: the boundary is recorded here
                right
                have hdm1 : delayOf selfId r.moduleID = 1 := by
                  have := delayOf_le_one selfId r.moduleID
                  omega
                refine ⟨by rw [h3mod, hdm1], stA.stream.length, ?_, ?_⟩
                · rw [h3fix, hAfix, if_pos hlt]
                · have := split_start (fun p => delayOf selfId p.1 = 0)
                    (fun p => delayOf selfId p.1 = 1) stA.stream tail hallA
                    (fun p hp => by
                      show delayOf selfId p.1 = 1
                      rw [h3tag p hp, hdm1])
                  rw [h3seq]
                  exact this
              · -- delay stays 0
                left
                have hdm0 : delayOf selfId r.moduleID = 0 := by omega
                refine ⟨by rw [h3mod, hdm0], by rw [h3fix, hAfix, if_neg (by omega), hfix0], ?_⟩
                intro p hp
                rw [h3seq] at hp
                rcases List.mem_append.mp hp with hp | hp
                · exact hallA p hp
                · rw [h3tag p hp, hdm0]
            · -- invariant case B: everything stays in the delayed part
              right
              have hdm1 : delayOf selfId r.moduleID = 1 := by
                have h1 := delayOf_le_one selfId r.moduleID
                omega
              have hkleA : k ≤ stA.stream.length := by
                rcases hAs with hAs | hAs <;> rw [hAs]
                · exact hkle
                · rw [List.length_append]; omega
              have htakeA : ∀ p ∈ stA.stream.take k, delayOf selfId p.1 = 0 := by
                rcases hAs with hAs | hAs <;> rw [hAs]
                · exact htake
                · rw [List.take_append_of_le_length hkle]
                  exact htake
              have hdropA : ∀ p ∈ stA.stream.drop k, delayOf selfId p.1 = 1 := by
                rcases hAs with hAs | hAs <;> rw [hAs]
                · exact hdrop
                · rw [List.drop_append_of_le_length hkle]
                  intro p hp
                  rcases List.mem_append.mp hp with hp | hp
                  · exact hdrop p hp
                  · simp only [List.mem_singleton] at hp
                    rw [hp]
                    exact hdc1
              refine ⟨by rw [h3mod, hdm1], k, ?_, ?_⟩
              · rw [h3fix, hAfix, if_neg (by omega), hfix]
              · have := split_extend (fun p => delayOf selfId p.1 = 0)
                  (fun p => delayOf selfId p.1 = 1) k stA.stream tail hkleA htakeA hdropA
                  (fun p hp => by
                    show delayOf selfId p.1 = 1
                    rw [h3tag p hp, hdm1])
                rw [h3seq]
                exact this
        refine ih (stepEmit stB r) res h hpw.of_cons ?_ hinv3
        intro x hx
        rw [h3mod]
        have hle : relLE selfId r x = true := by
          rw [List.pairwise_cons] at hpw
          exact hpw.1 x hx
        exact relLE_delay_le selfId r x hle

theorem delayOf_eq_zero_iff (selfId x : Nat) :
    delayOf selfId x = 0 ↔ ¬ (x = 0 ∨ x = selfId) := by
  unfold delayOf
  split <;> simp_all

theorem delayOf_eq_one_iff (selfId x : Nat) :
    delayOf selfId x = 1 ↔ (x = 0 ∨ x = selfId) := by
  unfold delayOf
  split <;> simp_all

theorem finalizeEnc_curModule (selfId : Nat) (st : EncState) :
    (finalizeEnc selfId st).curModule = st.curModule := by
  unfold finalizeEnc finalizeFix
  split <;> rfl

theorem finalizeEnc_fixedSize (selfId : Nat) (st : EncState) :
    (finalizeEnc selfId st).fixedSize =
      if delayOf selfId st.curModule = 0 then 8 * (st.stream.length + 1)
      else st.fixedSize := by
  unfold finalizeEnc finalizeFix
  by_cases h : delayOf selfId st.curModule = 0
  · rw [if_pos h, if_pos h]
    simp
  · rw [if_neg h, if_neg h]

/-- Claim C2: the `fixedDataSize` header field is
`relocationOffset + fixedRelocationsSize`, and the stream splits at byte
offset `fixedRelocationsSize` (entry index `k`, 8 bytes per entry): every
entry before the boundary belongs to a module block whose target module
is neither 0 (the DOL) nor the module's own ID, and every entry at or
beyond the boundary belongs to a block targeting module 0 or the module
itself. -/
theorem C2_fixed_data_size (selfId : Nat) (written : Nat → Option Nat)
    (relocOffset : Nat) (buf : List Nat) (rels : List Relocation) (res : EncState)
    (hself : selfId ≠ uMax)
    (hres : encodeRelocations selfId written relocOffset buf rels = some res) :
    headerFixedDataSize relocOffset res = relocOffset + res.fixedSize ∧
    ∃ k, res.fixedSize = 8 * k ∧ k ≤ res.stream.length ∧
      (∀ p ∈ res.stream.take k, ¬ (p.1 = 0 ∨ p.1 = selfId)) ∧
      (∀ p ∈ res.stream.drop k, p.1 = 0 ∨ p.1 = selfId) := by
  refine ⟨rfl, ?_⟩
  unfold encodeRelocations at hres
  rcases hl : encodeLoop selfId written relocOffset (sortRels selfId rels) (initState buf)
      with _ | stMid
  · rw [hl] at hres; cases hres
  · rw [hl] at hres
    simp only [Option.map_some'] at hres
    cases hres
    have huz : delayOf selfId uMax = 0 := by
      rw [delayOf_eq_zero_iff]
      push_neg
      refine ⟨by decide, fun hcon => hself hcon.symm⟩
    have hinv := encodeLoop_fixed selfId written relocOffset (sortRels selfId rels)
      (initState buf) stMid hl (sortRels_pairwise selfId rels)
      (by
        intro x hx
        show delayOf selfId uMax ≤ _
        rw [huz]
        omega)
      (by
        left
        refine ⟨huz, rfl, ?_⟩
        intro p hp
        simp [initState] at hp)
    rw [finalizeEnc_stream, finalizeEnc_fixedSize]
    rcases hinv with ⟨hdc0, hfix0, hall0⟩ | ⟨hdc1, k, hfix, hkle, htake, hdrop⟩
    · rw [if_pos hdc0]
      refine ⟨stMid.stream.length + 1, rfl, ?_, ?_, ?_⟩
      · rw [List.length_append]
        simp
      · intro p hp
        have hp2 : p ∈ stMid.stream ++ [(stMid.curModule, StreamEntry.stop)] :=
          List.mem_of_mem_take hp
        rw [← delayOf_eq_zero_iff]
        rcases List.mem_append.mp hp2 with hp2 | hp2
        · exact hall0 p hp2
        · simp only [List.mem_singleton] at hp2
          rw [hp2]
          exact hdc0
      · intro p hp
        rw [List.drop_eq_nil_of_le (by rw [List.length_append]; simp)] at hp
        cases hp
    · rw [if_neg (by omega)]
      refine ⟨k, hfix, ?_, ?_, ?_⟩
      · rw [List.length_append]
        omega
      · rw [List.take_append_of_le_length hkle]
        intro p hp
        rw [← delayOf_eq_zero_iff]
        exact htake p hp
      · rw [List.drop_append_of_le_length hkle]
        intro p hp
        rw [← delayOf_eq_one_iff]
        rcases List.mem_append.mp hp with hp | hp
        · exact hdrop p hp
        · simp only [List.mem_singleton] at hp
          rw [hp]
          exact hdc1

/-- Witness for `C2_fixed_data_size` at the multi-module scenario of the
spec (modules 1, 5, 0 and the module itself, 33): the boundary falls
after the module-5 block. -/
theorem C2_fixed_data_size_witness :
    headerFixedDataSize 100
        (EncState.mk 33 2 8 []
          [(1, StreamEntry.sect 2), (1, StreamEntry.real 0 ⟨1, 2, 0, 5, 7, 1⟩),
            (1, StreamEntry.stop), (5, StreamEntry.sect 2),
            (5, StreamEntry.real 0 ⟨5, 2, 0, 5, 7, 1⟩), (5, StreamEntry.stop),
            (0, StreamEntry.sect 2), (0, StreamEntry.real 4 ⟨0, 2, 4, 5, 7, 1⟩),
            (0, StreamEntry.stop), (33, StreamEntry.sect 2),
            (33, StreamEntry.real 8 ⟨33, 2, 8, 5, 7, 1⟩), (33, StreamEntry.stop)]
          [(1, 100), (5, 124), (0, 148), (33, 172)] 48) =
      100 + 48 ∧
    ∃ k, (48 : Nat) = 8 * k ∧ k ≤ 12 ∧
      (∀ p ∈ ([(1, StreamEntry.sect 2), (1, StreamEntry.real 0 ⟨1, 2, 0, 5, 7, 1⟩),
          (1, StreamEntry.stop), (5, StreamEntry.sect 2),
          (5, StreamEntry.real 0 ⟨5, 2, 0, 5, 7, 1⟩), (5, StreamEntry.stop),
          (0, StreamEntry.sect 2), (0, StreamEntry.real 4 ⟨0, 2, 4, 5, 7, 1⟩),
          (0, StreamEntry.stop), (33, StreamEntry.sect 2),
          (33, StreamEntry.real 8 ⟨33, 2, 8, 5, 7, 1⟩),
          (33, StreamEntry.stop)] : List (Nat × StreamEntry)).take k,
        ¬ (p.1 = 0 ∨ p.1 = 33)) ∧
      (∀ p ∈ ([(1, StreamEntry.sect 2), (1, StreamEntry.real 0 ⟨1, 2, 0, 5, 7, 1⟩),
          (1, StreamEntry.stop), (5, StreamEntry.sect 2),
          (5, StreamEntry.real 0 ⟨5, 2, 0, 5, 7, 1⟩), (5, StreamEntry.stop),
          (0, StreamEntry.sect 2), (0, StreamEntry.real 4 ⟨0, 2, 4, 5, 7, 1⟩),
          (0, StreamEntry.stop), (33, StreamEntry.sect 2),
          (33, StreamEntry.real 8 ⟨33, 2, 8, 5, 7, 1⟩),
          (33, StreamEntry.stop)] : List (Nat × StreamEntry)).drop k,
        p.1 = 0 ∨ p.1 = 33) :=
  C2_fixed_data_size 33 (fun _ => none) 100 []
    [⟨0, 2, 4, 5, 7, 1⟩, ⟨33, 2, 8, 5, 7, 1⟩, ⟨5, 2, 0, 5, 7, 1⟩, ⟨1, 2, 0, 5, 7, 1⟩]
    (EncState.mk 33 2 8 []
      [(1, StreamEntry.sect 2), (1, StreamEntry.real 0 ⟨1, 2, 0, 5, 7, 1⟩),
        (1, StreamEntry.stop), (5, StreamEntry.sect 2),
        (5, StreamEntry.real 0 ⟨5, 2, 0, 5, 7, 1⟩), (5, StreamEntry.stop),
        (0, StreamEntry.sect 2), (0, StreamEntry.real 4 ⟨0, 2, 4, 5, 7, 1⟩),
        (0, StreamEntry.stop), (33, StreamEntry.sect 2),
        (33, StreamEntry.real 8 ⟨33, 2, 8, 5, 7, 1⟩), (33, StreamEntry.stop)]
      [(1, 100), (5, 124), (0, 148), (33, 172)] 48)
    (by decide)
    (by rfl)

theorem countImports_eq_countRunsN :
    ∀ (last : Nat) (rels : List Relocation),
      countImports last rels = countRunsN last (rels.map (fun r => r.moduleID)) := by
  intro last rels
  induction rels generalizing last with
  | nil => rfl
  | cons r rs ih =>
    simp only [countImports, countRunsN, List.map_cons]
    by_cases h : last ≠ r.moduleID
    · rw [if_pos h, if_pos h, ih]
    · rw [if_neg h, if_neg h, ih]

theorem countRunsN_head (g : Nat → Nat) :
    ∀ (rest : List Nat) (x : Nat),
      List.Pairwise (fun a b => g a < g b ∨ (g a = g b ∧ a ≤ b)) (x :: rest) →
      countRunsN x rest + 1 = (x :: rest).dedup.length := by
  intro rest
  induction rest with
  | nil =>
    intro x _
    simp [countRunsN]
  | cons y rest2 ih =>
    intro x hpw
    have hpwt : List.Pairwise (fun a b => g a < g b ∨ (g a = g b ∧ a ≤ b)) (y :: rest2) :=
      hpw.of_cons
    by_cases hxy : x = y
    · subst hxy
      have h1 : countRunsN x (x :: rest2) = countRunsN x rest2 := by
        simp [countRunsN]
      rw [h1, List.dedup_cons_of_mem (List.mem_cons_self x rest2)]
      exact ih x hpwt
    · have h1 : countRunsN x (y :: rest2) = 1 + countRunsN y rest2 := by
        simp [countRunsN, hxy]
      have hnotmem : x ∉ y :: rest2 := by
        intro hmem
        rcases List.mem_cons.mp hmem with hmem | hmem
        · exact hxy hmem
        · have hxz : g x < g y ∨ (g x = g y ∧ x ≤ y) := by
            rw [List.pairwise_cons] at hpw
            exact hpw.1 y (by simp)
          have hyx : g y < g x ∨ (g y = g x ∧ y ≤ x) := by
            rw [List.pairwise_cons] at hpwt
            exact hpwt.1 x hmem
          have hxx : g x < g x ∨ (g x = g x ∧ x ≤ x) := by
            rw [List.pairwise_cons] at hpw
            exact hpw.1 x (by simp [hmem])
          omega
      rw [h1, List.dedup_cons_of_not_mem hnotmem]
      simp only [List.length_cons]
      have := ih y hpwt
      omega

theorem countRunsN_not_mem (g : Nat → Nat) (last : Nat) (l : List Nat)
    (hpw : List.Pairwise (fun a b => g a < g b ∨ (g a = g b ∧ a ≤ b)) l)
    (hnm : last ∉ l) :
    countRunsN last l = l.dedup.length := by
  cases l with
  | nil => rfl
  | cons x rest =>
    have hne : last ≠ x := fun h => hnm (by rw [h]; simp)
    have h1 : countRunsN last (x :: rest) = 1 + countRunsN x rest := by
      simp [countRunsN, hne]
    rw [h1]
    have := countRunsN_head g rest x hpw
    omega

theorem stepModule_impInfos_length (selfId ro : Nat) (st : EncState) (m : Nat) :
    (stepModule selfId ro st m).impInfos.length =
      if st.curModule = m then st.impInfos.length else st.impInfos.length + 1 := by
  by_cases h : st.curModule = m
  · rw [stepModule_eq_of_same selfId ro st m h, if_pos h]
  · rw [stepModule_eq_of_ne selfId ro st m h, if_neg h]
    show ((stepModuleFix selfId m (stepModuleEnd st)).impInfos ++ _).length = _
    rw [List.length_append, stepModuleFix_impInfos, stepModuleEnd_impInfos]
    simp

theorem encodeLoop_imports (selfId : Nat) (written : Nat → Option Nat) (ro : Nat) :
    ∀ (rels : List Relocation) (st res : EncState),
      encodeLoop selfId written ro rels st = some res →
      res.impInfos.length = st.impInfos.length +
        countRunsN st.curModule
          ((rels.filter (fun r => !earlyCond selfId r)).map (fun r => r.moduleID)) := by
  intro rels
  induction rels with
  | nil =>
    intro st res h
    simp only [encodeLoop] at h
    cases h
    simp [countRunsN]
  | cons r rs ih =>
    intro st res h
    simp only [encodeLoop] at h
    rcases hs : encodeStep selfId written ro st r with _ | st1
    · rw [hs] at h; cases h
    · rw [hs] at h
      unfold encodeStep at hs
      by_cases he : earlyCond selfId r = true
      · rw [if_pos he] at hs
        rcases hp : earlyPatch written st.buf r with _ | b
        · rw [hp] at hs; cases hs
        · rw [hp] at hs
          simp only [Option.map_some'] at hs
          cases hs
          rw [List.filter_cons_of_neg (by simp [he])]
          exact ih { st with buf := b } res h
      · rw [if_neg he] at hs
        cases hs
        have hrec := ih _ res h
        rw [List.filter_cons_of_pos (by simp [he])]
        simp only [List.map_cons, countRunsN]
        have h3imp : (stepEmit (stepSection (stepModule selfId ro st r.moduleID)
            r.srcSection) r).impInfos.length =
            if st.curModule = r.moduleID then st.impInfos.length
            else st.impInfos.length + 1 := by
          rw [stepEmit_impInfos, stepSection_impInfos, stepModule_impInfos_length]
        have h3mod : (stepEmit (stepSection (stepModule selfId ro st r.moduleID)
            r.srcSection) r).curModule = r.moduleID := by
          rw [stepEmit_curModule, stepSection_curModule, stepModule_curModule]
        rw [h3mod] at hrec
        by_cases hm : st.curModule = r.moduleID
        · rw [if_neg (by omega : ¬ st.curModule ≠ r.moduleID)]
          rw [h3imp, if_pos hm] at hrec
          rw [hrec, hm]
        · rw [if_pos hm]
          rw [h3imp, if_neg hm] at hrec
          omega

theorem sortRels_map_pairwise (selfId : Nat) (rels : List Relocation) :
    List.Pairwise
      (fun a b => delayOf selfId a < delayOf selfId b ∨ (delayOf selfId a = delayOf selfId b ∧ a ≤ b))
      ((sortRels selfId rels).map (fun r => r.moduleID)) := by
  rw [List.pairwise_map]
  refine (sortRels_pairwise selfId rels).imp ?_
  intro a b hle
  have hco := (relLE_iff selfId a b).mp hle
  unfold claimOrder at hco
  omega

theorem filter_sortRels_map_pairwise (selfId : Nat) (rels : List Relocation)
    (p : Relocation → Bool) :
    List.Pairwise
      (fun a b => delayOf selfId a < delayOf selfId b ∨ (delayOf selfId a = delayOf selfId b ∧ a ≤ b))
      (((sortRels selfId rels).filter p).map (fun r => r.moduleID)) := by
  rw [List.pairwise_map]
  refine (((sortRels_pairwise selfId rels).sublist (List.filter_sublist _)).imp ?_)
  intro a b hle
  have hco := (relLE_iff selfId a b).mp hle
  unfold claimOrder at hco
  omega

/-- Claim C7 (amended): `importCount` equals the number of distinct
`moduleId` values in the sorted relocation list INCLUDING relocations
that early resolution later removes; `importInfoSize` written to the
header is 8 times the number of distinct modules with at least one
relocation actually emitted, which can be smaller than `8 * importCount`
when all of a module's relocations are early-resolved. -/
theorem C7_import_count_amended (selfId : Nat) (written : Nat → Option Nat)
    (relocOffset : Nat) (buf : List Nat) (rels : List Relocation) (res : EncState)
    (hmod : ∀ r ∈ rels, r.moduleID ≠ uMax)
    (hres : encodeRelocations selfId written relocOffset buf rels = some res) :
    importCountModel selfId rels =
      ((sortRels selfId rels).map (fun r => r.moduleID)).dedup.length ∧
    importInfoSizeOf res =
      8 * (((sortRels selfId rels).filter (fun r => !earlyCond selfId r)).map
        (fun r => r.moduleID)).dedup.length := by
  constructor
  · unfold importCountModel
    rw [countImports_eq_countRunsN]
    refine countRunsN_not_mem (delayOf selfId) uMax _
      (sortRels_map_pairwise selfId rels) ?_
    intro hmem
    rcases List.mem_map.mp hmem with ⟨r, hrmem, hrid⟩
    exact hmod r ((sortRels_perm selfId rels).mem_iff.mp hrmem) hrid
  · unfold encodeRelocations at hres
    rcases hl : encodeLoop selfId written relocOffset (sortRels selfId rels) (initState buf)
        with _ | stMid
    · rw [hl] at hres; cases hres
    · rw [hl] at hres
      simp only [Option.map_some'] at hres
      cases hres
      have hlen := encodeLoop_imports selfId written relocOffset (sortRels selfId rels)
        (initState buf) stMid hl
      unfold importInfoSizeOf
      rw [finalizeEnc_impInfos, hlen]
      simp only [initState, List.length_nil, Nat.zero_add]
      congr 1
      refine countRunsN_not_mem (delayOf selfId) uMax _
        (filter_sortRels_map_pairwise selfId rels _) ?_
      intro hmem
      rcases List.mem_map.mp hmem with ⟨r, hrmem, hrid⟩
      have hr2 : r ∈ sortRels selfId rels := List.mem_of_mem_filter hrmem
      exact hmod r ((sortRels_perm selfId rels).mem_iff.mp hr2) hrid

/-- Witness for `C7_import_count_amended` at a one-relocation input with
no early resolution: one import slot, 8 bytes of import info. -/
theorem C7_import_count_amended_witness :
    importCountModel 33 [⟨1, 2, 0, 5, 7, 1⟩] =
      ((sortRels 33 [⟨1, 2, 0, 5, 7, 1⟩]).map (fun r => r.moduleID)).dedup.length ∧
    importInfoSizeOf
        (EncState.mk 1 2 0 []
          [(1, StreamEntry.sect 2), (1, StreamEntry.real 0 ⟨1, 2, 0, 5, 7, 1⟩),
            (1, StreamEntry.stop)] [(1, 100)] 24) =
      8 * (((sortRels 33 [⟨1, 2, 0, 5, 7, 1⟩]).filter
        (fun r => !earlyCond 33 r)).map (fun r => r.moduleID)).dedup.length :=
  C7_import_count_amended 33 (fun _ => none) 100 [] [⟨1, 2, 0, 5, 7, 1⟩]
    (EncState.mk 1 2 0 []
      [(1, StreamEntry.sect 2), (1, StreamEntry.real 0 ⟨1, 2, 0, 5, 7, 1⟩),
        (1, StreamEntry.stop)] [(1, 100)] 24)
    (by decide)
    (by rfl)

/-- Claim C7 is FALSE as stated: with a single self-module `R_PPC_REL24`
relocation, `importCount` (counted over the sorted list BEFORE early
resolution) is 1 and one dummy import slot is reserved, but the
relocation is early-resolved, no import-info entry is ever written, the
emitted stream references no module, and the header's `importInfoSize`
is 0, not `8 * importCount = 8`. -/
theorem C7_counterexample :
    importCountModel 33 [⟨33, 2, 0, 5, 0, 10⟩] = 1 ∧
    encodeRelocations 33 (fun i => if i = 2 then some 0 else if i = 5 then some 0 else none)
        100 [0, 0, 0, 0] [⟨33, 2, 0, 5, 0, 10⟩] =
      some (EncState.mk uMax uMax 0 [0, 0, 0, 0] [(uMax, StreamEntry.stop)] [] 8) ∧
    importInfoSizeOf
        (EncState.mk uMax uMax 0 [0, 0, 0, 0] [(uMax, StreamEntry.stop)] [] 8) = 0 ∧
    ((realRels [(uMax, StreamEntry.stop)]).map (fun r => r.moduleID)).dedup.length = 0 ∧
    (0 : Nat) ≠ 8 * 1 := by
  refine ⟨?_, ?_, rfl, by decide, by decide⟩
  · rfl
  · rfl

theorem getD_set_self2 (l : List Nat) (i a : Nat) (h : i < l.length) :
    (l.set i a).getD i 0 = a := by
  rw [List.getD_eq_getElem?_getD, List.getElem?_set_self h]
  rfl

theorem getD_set_ne2 (l : List Nat) (i j a : Nat) (h : i ≠ j) :
    (l.set i a).getD j 0 = l.getD j 0 := by
  rw [List.getD_eq_getElem?_getD, List.getD_eq_getElem?_getD, List.getElem?_set_ne h]

theorem readBE32_writeBE32 (buf : List Nat) (off v : Nat) (h : off + 4 ≤ buf.length) :
    readBE32 (writeBE32 buf off v) off = v % 4294967296 := by
  have h0 : (writeBE32 buf off v).getD off 0 = v / 16777216 % 256 := by
    unfold writeBE32
    rw [getD_set_ne2 _ _ _ _ (by omega), getD_set_ne2 _ _ _ _ (by omega),
      getD_set_ne2 _ _ _ _ (by omega),
      getD_set_self2 _ _ _ (by omega)]
  have h1 : (writeBE32 buf off v).getD (off + 1) 0 = v / 65536 % 256 := by
    unfold writeBE32
    rw [getD_set_ne2 _ _ _ _ (by omega), getD_set_ne2 _ _ _ _ (by omega),
      getD_set_self2 _ _ _ (by rw [List.length_set]; omega)]
  have h2 : (writeBE32 buf off v).getD (off + 2) 0 = v / 256 % 256 := by
    unfold writeBE32
    rw [getD_set_ne2 _ _ _ _ (by omega),
      getD_set_self2 _ _ _ (by rw [List.length_set, List.length_set]; omega)]
  have h3 : (writeBE32 buf off v).getD (off + 3) 0 = v % 256 := by
    unfold writeBE32
    rw [getD_set_self2 _ _ _
      (by rw [List.length_set, List.length_set, List.length_set]; omega)]
  unfold readBE32
  rw [h0, h1, h2, h3]
  omega

/-- Claim C4: a relocation is resolved early — patched into the section
bytes and omitted from the emitted stream — exactly when its module is
the module's own ID and its type is `R_PPC_REL24` or `R_PPC_REL32` (the
emitted real entries are precisely the sorted relocations failing that
test); and for `R_PPC_REL24` the patched 32-bit word is the ORIGINAL
instruction bitwise-OR'd with `delta & 0x03FFFFFC` (no clearing of the
displacement field first), where
`delta = (targetSection.relOffset + addend) - (sourceSection.relOffset + offset)`
as a wrapped 32-bit value. -/
theorem C4_early_resolution :
    (∀ (selfId : Nat) (written : Nat → Option Nat) (relocOffset : Nat) (buf : List Nat)
        (rels : List Relocation) (res : EncState),
      encodeRelocations selfId written relocOffset buf rels = some res →
      realRels res.stream = (sortRels selfId rels).filter (fun r => !earlyCond selfId r)) ∧
    (∀ (written : Nat → Option Nat) (buf : List Nat) (r : Relocation)
        (srcBase dstBase : Nat) (buf2 : List Nat),
      r.rtype = R_PPC_REL24 →
      written r.srcSection = some srcBase →
      written r.targetSection = some dstBase →
      earlyPatch written buf r = some buf2 →
      readBE32 buf2 (srcBase + r.offset) =
        (readBE32 buf (srcBase + r.offset) |||
          (wrap32 ((dstBase : Int) + (r.addend : Int) - ((srcBase + r.offset : Nat) : Int)) &&&
            0x03FFFFFC)) % 4294967296) := by
  constructor
  · intro selfId written relocOffset buf rels res hres
    exact encodeRelocations_realRels selfId written relocOffset buf rels res hres
  · intro written buf r srcBase dstBase buf2 hty hsrc hdst hpatch
    unfold earlyPatch at hpatch
    rw [hsrc, hdst] at hpatch
    dsimp only at hpatch
    by_cases hlen : srcBase + r.offset + 4 ≤ buf.length
    · rw [if_pos hlen] at hpatch
      rw [if_pos hty] at hpatch
      simp only [Option.some.injEq] at hpatch
      rw [← hpatch]
      exact readBE32_writeBE32 buf (srcBase + r.offset) _ hlen
    · rw [if_neg hlen] at hpatch
      cases hpatch

/-- Witness for `C4_early_resolution`: the stream-filter part at the
one-relocation input, and the patch formula at a 4-byte buffer where the
original instruction bits survive the OR. -/
theorem C4_early_resolution_witness :
    realRels
        (EncState.mk 1 2 0 []
          [(1, StreamEntry.sect 2), (1, StreamEntry.real 0 ⟨1, 2, 0, 5, 7, 1⟩),
            (1, StreamEntry.stop)] [(1, 100)] 24).stream =
      (sortRels 33 [⟨1, 2, 0, 5, 7, 1⟩]).filter (fun r => !earlyCond 33 r) ∧
    readBE32 [0, 0, 0, 9] (0 + (0 : Nat)) =
      (readBE32 [0, 0, 0, 1] (0 + (0 : Nat)) |||
        (wrap32 (((0 : Nat) : Int) + ((8 : Nat) : Int) - (((0 + 0 : Nat) : Nat) : Int)) &&&
          0x03FFFFFC)) % 4294967296 :=
  ⟨C4_early_resolution.1 33 (fun _ => none) 100 [] [⟨1, 2, 0, 5, 7, 1⟩]
      (EncState.mk 1 2 0 []
        [(1, StreamEntry.sect 2), (1, StreamEntry.real 0 ⟨1, 2, 0, 5, 7, 1⟩),
          (1, StreamEntry.stop)] [(1, 100)] 24)
      (by rfl),
    C4_early_resolution.2
      (fun i => if i = 2 then some 0 else if i = 5 then some 0 else none)
      [0, 0, 0, 1] ⟨33, 2, 0, 5, 8, 10⟩ 0 0 [0, 0, 0, 9]
      (by rfl) (by rfl) (by rfl) (by rfl)⟩


/-- Claim C10: a self-relocation of type `R_PPC_REL24` (or `R_PPC_REL32`)
whose target is a kept-but-unwritten NOBITS section passes the collector
without any diagnostic (the warning requires the target to be neither
written nor NOBITS), but the early-resolution path then performs an
unguarded `writtenSections.at` lookup on the target section which fails,
terminating the program by an uncaught exception — modelled here by the
encoder returning `none`. -/
theorem C10_nobits_crash (selfId : Nat) (extMap : SymMap)
    (writtenDom isNobits : Nat → Bool) (relocIdx off rtype : Nat) (addend : Int)
    (sym : SymInfo) (written : Nat → Option Nat) (relocOffset : Nat) (buf : List Nat)
    (hsec : sym.sectionIndex ≠ 0)
    (hsec256 : sym.sectionIndex < 256)
    (hnb : isNobits sym.sectionIndex = true)
    (hwd : writtenDom sym.sectionIndex = false)
    (hty : rtype = R_PPC_REL24)
    (hw : written sym.sectionIndex = none) :
    (collectEntry selfId extMap writtenDom isNobits relocIdx off rtype addend sym).2 =
      false ∧
    ∃ rel,
      (collectEntry selfId extMap writtenDom isNobits relocIdx off rtype addend sym).1 =
        some rel ∧
      encodeRelocations selfId written relocOffset buf [rel] = none := by
  subst hty
  have hC : collectEntry selfId extMap writtenDom isNobits relocIdx off R_PPC_REL24
      addend sym =
      (some (Relocation.mk selfId relocIdx (off % 4294967296) (sym.sectionIndex % 256)
        (wrap32 (addend + (sym.value : Int))) (R_PPC_REL24 % 256)),
        !(writtenDom sym.sectionIndex) && !(isNobits sym.sectionIndex)) := by
    unfold collectEntry
    rw [if_neg (by unfold R_PPC_REL24 R_PPC_NONE; omega), if_pos hsec]
  refine ⟨by rw [hC]; simp [hwd, hnb], ?_⟩
  refine ⟨_, by rw [hC], ?_⟩
  unfold encodeRelocations
  have hsort : sortRels selfId [Relocation.mk selfId relocIdx (off % 4294967296)
      (sym.sectionIndex % 256) (wrap32 (addend + (sym.value : Int))) (R_PPC_REL24 % 256)] =
      [Relocation.mk selfId relocIdx (off % 4294967296) (sym.sectionIndex % 256)
        (wrap32 (addend + (sym.value : Int))) (R_PPC_REL24 % 256)] := by
    rfl
  rw [hsort]
  simp only [encodeLoop]
  have hcond : earlyCond selfId (Relocation.mk selfId relocIdx (off % 4294967296)
      (sym.sectionIndex % 256) (wrap32 (addend + (sym.value : Int)))
      (R_PPC_REL24 % 256)) = true := by
    simp [earlyCond, R_PPC_REL24]
  unfold encodeStep
  rw [if_pos hcond]
  have hmod : sym.sectionIndex % 256 = sym.sectionIndex := Nat.mod_eq_of_lt hsec256
  have hpatch : earlyPatch written (initState buf).buf (Relocation.mk selfId relocIdx
      (off % 4294967296) (sym.sectionIndex % 256) (wrap32 (addend + (sym.value : Int)))
      (R_PPC_REL24 % 256)) = none := by
    unfold earlyPatch
    rw [show (Relocation.mk selfId relocIdx (off % 4294967296) (sym.sectionIndex % 256)
      (wrap32 (addend + (sym.value : Int))) (R_PPC_REL24 % 256)).targetSection =
      sym.sectionIndex % 256 from rfl, hmod, hw]
    cases written relocIdx <;> rfl
  rw [hpatch]
  rfl

/-- Witness for `C10_nobits_crash` at concrete values: target section 5
is NOBITS, kept but never written, and the encoder crashes. -/
theorem C10_nobits_crash_witness :
    (collectEntry 33 [] (fun _ => false) (fun i => decide (i = 5)) 2 0 R_PPC_REL24 0
        ⟨"x".toList, 0, 5⟩).2 = false ∧
    ∃ rel,
      (collectEntry 33 [] (fun _ => false) (fun i => decide (i = 5)) 2 0 R_PPC_REL24 0
          ⟨"x".toList, 0, 5⟩).1 = some rel ∧
      encodeRelocations 33 (fun _ => none) 100 [] [rel] = none :=
  C10_nobits_crash 33 [] (fun _ => false) (fun i => decide (i = 5)) 2 0 R_PPC_REL24 0
    ⟨"x".toList, 0, 5⟩ (fun _ => none) 100 []
    (by decide) (by decide) (by decide) (by decide) rfl rfl
